import Mathlib

/-!
# Verification of the goml supervised-learning core

A shallow embedding of the goml package (engine, model descriptor, weight
store, the four trainer/predictor pairs, automatic model selection and the
serialized snapshot), together with theorems settling the frozen claims.

Modelling conventions:
* Go `float64` arithmetic is modelled by exact rational arithmetic (`ℚ`).
* Go maps (`map[string]T`) are modelled as association lists with
  first-match lookup; `m[k] = v` is in-place replacement or append.  Go's
  unspecified map iteration order is determinized to list order.
* `math.Exp` and `math.Log` are modelled by an explicit pair of rational
  functions (`FloatOps`); theorems that need facts about the exponential
  assume only its positivity.
* Dynamic `interface{}` record values are modelled by the closed `GoVal`
  type covering the value shapes that occur in the repository: `float64`,
  `int`, `string`, `bool` and the `map[string]float64` probability maps
  that predictors emit.
-/

deriving instance DecidableEq for Except

namespace goml

/-- First-match lookup in an association list (Go `v, ok := m[k]`). -/
def lookupKV {α : Type} (m : List (String × α)) (k : String) : Option α :=
  match m with
  | [] => none
  | (k', v) :: rest => if k' = k then some v else lookupKV rest k

/-- Go map assignment `m[k] = v`: replace the existing binding, else append. -/
def setKV {α : Type} (m : List (String × α)) (k : String) (v : α) :
    List (String × α) :=
  match m with
  | [] => [(k, v)]
  | (k', v') :: rest => if k' = k then (k, v) :: rest else (k', v') :: setKV rest k v

theorem lookupKV_setKV_self {α : Type} (m : List (String × α)) (k : String) (v : α) :
    lookupKV (setKV m k v) k = some v := by
  induction m with
  | nil => simp [setKV, lookupKV]
  | cons p rest ih =>
    obtain ⟨k', v'⟩ := p
    by_cases h : k' = k
    · simp [setKV, h, lookupKV]
    · simp [setKV, h, lookupKV, ih]

theorem lookupKV_setKV_ne {α : Type} (m : List (String × α)) (k k' : String) (v : α)
    (h : k ≠ k') : lookupKV (setKV m k v) k' = lookupKV m k' := by
  induction m with
  | nil => simp [setKV, lookupKV, h]
  | cons p rest ih =>
    obtain ⟨k₀, v₀⟩ := p
    by_cases h₀ : k₀ = k
    · subst h₀
      simp [setKV, lookupKV, h]
    · simp [setKV, h₀, lookupKV, ih]

theorem lookupKV_mem {α : Type} {m : List (String × α)} {k : String} {v : α}
    (h : lookupKV m k = some v) : (k, v) ∈ m := by
  induction m with
  | nil => simp [lookupKV] at h
  | cons p rest ih =>
    obtain ⟨k', v'⟩ := p
    by_cases hk : k' = k
    · subst hk
      simp [lookupKV] at h
      simp [h]
    · simp [lookupKV, hk] at h
      exact List.mem_cons_of_mem _ (ih h)

/-- Dynamic record values: the `interface{}` shapes occurring in the system. -/
inductive GoVal where
  /-- a Go `float64` -/
  | num (x : ℚ)
  /-- a Go `int` -/
  | int (n : ℤ)
  /-- a Go `string` -/
  | str (s : String)
  /-- a Go `bool` -/
  | bool (b : Bool)
  /-- a Go `map[string]float64` (the `"_probs"` values emitted by predictors) -/
  | dict (m : List (String × ℚ))
deriving DecidableEq, Repr

/-- One training or inference record: a field-name-to-value map. -/
abbrev GoRec := List (String × GoVal)

/-- Embeds `fmt.Sprintf("%v", val)` on a record value, used by the categorical
trainer to derive category labels.  `%v` on a `float64` prints Go's shortest
round-tripping decimal; label texts exercised by the claims are strings (for
which `%v` is the identity) and integers, so the non-integer float rendering
is modelled by `ℚ`'s textual form. -/
def goFormat : GoVal → String
  | .num x => if x.den = 1 then toString x.num else toString x
  | .int n => toString n
  | .str s => s
  | .bool b => if b then "true" else "false"
  | .dict _ => "map[]"

/-- Digit-run parser for the numeric-verb model below. -/
def takeDigits : List Char → List Char × List Char
  | [] => ([], [])
  | c :: rest =>
    if c.isDigit then
      let p := takeDigits rest
      (c :: p.1, p.2)
    else ([], c :: rest)

/-- Value of a digit run. -/
def digitsVal (ds : List Char) : ℕ :=
  ds.foldl (fun acc c => 10 * acc + (c.toNat - '0'.toNat)) 0

/-- Embeds `stringToInt` (`fmt.Sscanf(s, "%d", &v)`): the `%d` verb reads an
optional sign and at least one digit, ignoring any unconsumed suffix;
failure when no digit can be read. -/
def stringToInt (s : String) : Option ℤ :=
  let go : List Char → Option ℤ := fun cs =>
    let (neg, cs) := match cs with
      | '-' :: rest => (true, rest)
      | '+' :: rest => (false, rest)
      | other => (false, other)
    let (ds, _) := takeDigits cs
    if ds.isEmpty then none
    else some (if neg then -(digitsVal ds : ℤ) else (digitsVal ds : ℤ))
  go s.data

/-- Embeds `stringToFloat64` (`fmt.Sscanf(s, "%f", &v)`): the `%f` verb reads an
optional sign, digits with an optional fractional part (at least one digit
overall) and an optional decimal exponent, ignoring any unconsumed suffix. -/
def stringToFloat64 (s : String) : Option ℚ :=
  let go : List Char → Option ℚ := fun cs =>
    let (neg, cs) := match cs with
      | '-' :: rest => (true, rest)
      | '+' :: rest => (false, rest)
      | other => (false, other)
    let (intDs, cs) := takeDigits cs
    let (fracDs, cs) := match cs with
      | '.' :: rest => takeDigits rest
      | other => ([], other)
    if intDs.isEmpty ∧ fracDs.isEmpty then none
    else
      let mantissa : ℚ :=
        (digitsVal intDs : ℚ) + (digitsVal fracDs : ℚ) / ((10 : ℚ) ^ fracDs.length)
      let base : ℚ := if neg then -mantissa else mantissa
      match cs with
      | 'e' :: rest | 'E' :: rest =>
        let (eneg, rest) := match rest with
          | '-' :: r => (true, r)
          | '+' :: r => (false, r)
          | other => (false, other)
        let (eds, _) := takeDigits rest
        if eds.isEmpty then some base
        else some (base * (if eneg then ((10 : ℚ) ^ digitsVal eds)⁻¹
                           else (10 : ℚ) ^ digitsVal eds))
      | _ => some base
  go s.data

/-- Embeds `isNumeric`: the string parses under `%f` or `%d`. -/
def isNumericStr (s : String) : Bool :=
  (stringToFloat64 s).isSome || (stringToInt s).isSome

/-- The learned weights: `Weights.Values` is `map[string]interface{}` in the
source, but every value ever stored in it is a `float64`, so the store is
modelled with rational values. -/
structure Weights where
  values : List (String × ℚ)
deriving DecidableEq, Repr

/-- Embeds `Weights.Get` (presence included). -/
def Weights.get (w : Weights) (k : String) : Option ℚ :=
  lookupKV w.values k

/-- Embeds `Weights.Set`. -/
def Weights.set (w : Weights) (k : String) (v : ℚ) : Weights :=
  ⟨setKV w.values k v⟩

/-- Embeds `Weights.GetFloat`: identical to `Get` here because every stored value
is numeric (the source's non-numeric fallback is unreachable). -/
def Weights.getFloat (w : Weights) (k : String) : Option ℚ :=
  lookupKV w.values k

/-- Training configuration. -/
structure Config where
  learningRate : ℚ
  epochs : ℕ
  batchSize : ℕ
  regularize : ℚ
  tolerance : ℚ
deriving DecidableEq, Repr

/-- Embeds `DefaultConfig`. -/
def DefaultConfig : Config :=
  { learningRate := 1/100, epochs := 100, batchSize := 32,
    regularize := 1/10000, tolerance := 1/10000 }

/-- The two transcendental `math` functions the algorithms consume,
abstracted as rational functions. -/
structure FloatOps where
  exp : ℚ → ℚ
  log : ℚ → ℚ

/-- The error taxonomy (each constructor corresponds to one error value or
`fmt.Errorf` message in the source). -/
inductive GoErr where
  /-- `"model not initialized"` -/
  | modelNotInitialized
  /-- `"number of input samples (%d) must match number of output samples (%d)"` -/
  | shapeMismatch
  /-- `"no training data provided"` -/
  | emptyTrainingSet
  /-- `"weights not initialized, model not trained"` -/
  | weightsNotInitialized
  /-- `ErrUnsupportedModelType` -/
  | unsupportedModelType
  /-- `ErrInvalidInput` -/
  | invalidInput
  /-- `ErrInvalidOutput` -/
  | invalidOutput
  /-- `"failed to unmarshal ..."` -/
  | unmarshalError
  /-- an error wrapped by `fmt.Errorf("...: %w", err)` -/
  | wrap (ctx : String) (e : GoErr)
deriving DecidableEq, Repr

/-- Embeds `ConvertToFloat64` (utils.go): numeric, bool and string (one-hot against
`oneHotKey`) conversion; the `(float64, bool)` pair is modelled as `Option`. -/
def ConvertToFloat64 (val : GoVal) (oneHotKey : String) : Option ℚ :=
  match val with
  | .num x => some x
  | .int n => some (n : ℚ)
  | .bool b => some (if b then 1 else 0)
  | .str s => some (if s = oneHotKey then 1 else 0)
  | .dict _ => none

/-- Embeds `IsSupportedNumericType` (utils.go). -/
def IsSupportedNumericType : GoVal → Bool
  | .num _ => true
  | .int _ => true
  | _ => false

/-- Embeds `IsSupportedBooleanType` (utils.go). -/
def IsSupportedBooleanType : GoVal → Bool
  | .bool _ => true
  | _ => false

/-- Embeds `ConvertToBool` (utils.go). -/
def ConvertToBool (val : GoVal) : Option Bool :=
  match val with
  | .bool b => some b
  | .int n => some (decide (n ≠ 0))
  | .num x => some (decide (x ≠ 0))
  | .str s => some (s = "true" || s = "yes" || s = "1")
  | .dict _ => none

/-- The feature-value type switch that appears inline in every trainer and
predictor (`case float64 / int / string` with one-hot against the field's own
name, `default: continue`).  Note that, unlike `ConvertToFloat64`, this
inline switch has **no `bool` case**: boolean values fall into the default
branch and the field is skipped (`none`). -/
def featureToFloat (v : GoVal) (fieldName : String) : Option ℚ :=
  match v with
  | .num x => some x
  | .int n => some (n : ℚ)
  | .str s => some (if s = fieldName then 1 else 0)
  | _ => none

/-- The target-value switch of the linear/logistic trainers
(`case float64 / int`, `default: continue`); boolean targets are skipped. -/
def actualToFloat (v : GoVal) : Option ℚ :=
  match v with
  | .num x => some x
  | .int n => some (n : ℚ)
  | _ => none

/-- Embeds `math.Abs`. -/
def goAbs (x : ℚ) : ℚ := if x < 0 then -x else x

/-- Embeds `math.Max`. -/
def goMax (a b : ℚ) : ℚ := if a ≥ b then a else b

/-- Embeds `math.Min`. -/
def goMin (a b : ℚ) : ℚ := if a ≤ b then a else b

/-- The contiguous `[batchStart, batchEnd)` slices visited by
`for batchStart := 0; batchStart < n; batchStart += bs` with
`batchEnd = min(batchStart+bs, n)`.  (With `bs = 0` the source loop would
not terminate; the embedding yields no batches in that degenerate case.) -/
def batchRanges (n bs : ℕ) : List (ℕ × ℕ) :=
  if bs = 0 then []
  else (List.range ((n + bs - 1) / bs)).map (fun j => (j * bs, min ((j + 1) * bs) n))

/-! ## Linear trainer / predictor -/

/-- The in-sample prediction computed inside the linear trainer's gradient
and bias loops (and, with the sigmoid applied on top, the `z` value of the
logistic trainer): sum of `weight * coerced value` over the feature-name
list, skipping absent weights, absent fields and unconvertible values, plus
the bias when present.  Feature values here are **not** mean-normalized. -/
def linPredictRow (w : Weights) (features : List String) (row : GoRec)
    (target : String) : ℚ :=
  let base := features.foldl (fun acc f =>
    match w.getFloat (f ++ "->" ++ target) with
    | none => acc
    | some wt =>
      match lookupKV row f with
      | none => acc
      | some v =>
        match featureToFloat v f with
        | none => acc
        | some x => acc + wt * x) 0
  match w.getFloat ("bias->" ++ target) with
  | some b => base + b
  | none => base

/-- The per-feature training-set mean: sum and count over the examples whose
value for `f` is a `float64` or an `int`; `none` when no example is numeric
(the feature is then missing from the `featureMeans` map). -/
def featureMean (inputs : List GoRec) (f : String) : Option ℚ :=
  let p := inputs.foldl (fun (p : ℚ × ℕ) row =>
    match lookupKV row f with
    | some (GoVal.num x) => (p.1 + x, p.2 + 1)
    | some (GoVal.int n) => (p.1 + (n : ℚ), p.2 + 1)
    | _ => p) (0, 0)
  if p.2 > 0 then some (p.1 / (p.2 : ℚ)) else none

/-- The normalized feature value used in the linear gradient: numeric values
are divided by the feature's training-set mean when that mean exists and is
nonzero; strings are one-hot against the field name; other shapes (booleans
included) are skipped. -/
def linNormFeature (inputs : List GoRec) (row : GoRec) (f : String) : Option ℚ :=
  match lookupKV row f with
  | none => none
  | some v =>
    match v with
    | .num x =>
      some (match featureMean inputs f with
            | some m => if m ≠ 0 then x / m else x
            | none => x)
    | .int n =>
      some (match featureMean inputs f with
            | some m => if m ≠ 0 then (n : ℚ) / m else (n : ℚ)
            | none => (n : ℚ))
    | .str s => some (if s = f then 1 else 0)
    | _ => none

/-- The actual target value of example `i` (skipped when missing or
non-numeric). -/
def actualOf (outputs : List GoRec) (i : ℕ) (target : String) : Option ℚ :=
  (lookupKV (outputs.getD i []) target).bind actualToFloat

/-- The batched linear gradient for one `(feature, target)` weight:
accumulate `(predicted − actual) * normalized feature value` over the batch
(skipping examples with a missing/unconvertible feature value or a
missing/non-numeric actual), then divide by the batch length. -/
def linGradient (inputs outputs : List GoRec) (w : Weights) (features : List String)
    (target f : String) (batchStart batchEnd : ℕ) : ℚ :=
  let g := (List.range' batchStart (batchEnd - batchStart)).foldl (fun acc i =>
    match linNormFeature inputs (inputs.getD i []) f with
    | none => acc
    | some fv =>
      let predicted := linPredictRow w features (inputs.getD i []) target
      match actualOf outputs i target with
      | none => acc
      | some actual => acc + (predicted - actual) * fv) 0
  g / ((batchEnd - batchStart : ℕ) : ℚ)

/-- One feature-weight update of the linear trainer:
`w := w − lr * (gradient + regularize * w)`. -/
def linFeatureStep (inputs outputs : List GoRec) (cfg : Config)
    (features : List String) (target : String) (batchStart batchEnd : ℕ)
    (w : Weights) (f : String) : Weights :=
  let key := f ++ "->" ++ target
  let gradient := linGradient inputs outputs w features target f batchStart batchEnd
  let currentWeight := (w.getFloat key).getD 0
  w.set key (currentWeight - cfg.learningRate * (gradient + cfg.regularize * currentWeight))

/-- The batched bias gradient: mean over the batch of `predicted − actual`
(examples with a missing/non-numeric actual are skipped). -/
def linBiasGradient (inputs outputs : List GoRec) (w : Weights)
    (features : List String) (target : String) (batchStart batchEnd : ℕ) : ℚ :=
  let g := (List.range' batchStart (batchEnd - batchStart)).foldl (fun acc i =>
    let predicted := linPredictRow w features (inputs.getD i []) target
    match actualOf outputs i target with
    | none => acc
    | some actual => acc + (predicted - actual)) 0
  g / ((batchEnd - batchStart : ℕ) : ℚ)

/-- The bias update of the linear trainer (no regularization term). -/
def linBiasStep (inputs outputs : List GoRec) (cfg : Config)
    (features : List String) (target : String) (batchStart batchEnd : ℕ)
    (w : Weights) : Weights :=
  let biasKey := "bias->" ++ target
  let biasGradient := linBiasGradient inputs outputs w features target batchStart batchEnd
  let currentBias := (w.getFloat biasKey).getD 0
  w.set biasKey (currentBias - cfg.learningRate * biasGradient)

/-- Processing of one target for one batch: every feature weight in sequence
(each update observing the store as left by the previous one), then the
bias. -/
def linTargetBatchStep (inputs outputs : List GoRec) (cfg : Config)
    (features : List String) (batchStart batchEnd : ℕ) (w : Weights)
    (target : String) : Weights :=
  linBiasStep inputs outputs cfg features target batchStart batchEnd
    (features.foldl (linFeatureStep inputs outputs cfg features target batchStart batchEnd) w)

/-- One epoch of the linear trainer: every batch, and inside a batch every
target. -/
def linEpochStep (inputs outputs : List GoRec) (cfg : Config)
    (features targets : List String) (w : Weights) : Weights :=
  (batchRanges inputs.length cfg.batchSize).foldl (fun w r =>
    targets.foldl (fun w t =>
      linTargetBatchStep inputs outputs cfg features r.1 r.2 w t) w) w

/-- Embeds `calculateMSE`: mean squared error over all examples and targets
(examples with a missing/non-numeric actual are skipped); `0` when nothing
was counted. -/
def calculateMSE (inputs outputs : List GoRec) (w : Weights)
    (features targets : List String) : ℚ :=
  let p := (List.range inputs.length).foldl (fun (p : ℚ × ℕ) i =>
    targets.foldl (fun (p : ℚ × ℕ) t =>
      match actualOf outputs i t with
      | none => p
      | some a =>
        let e := linPredictRow w features (inputs.getD i []) t - a
        (p.1 + e * e, p.2 + 1)) p) (0, 0)
  if p.2 = 0 then 0 else p.1 / (p.2 : ℚ)

/-- The epoch loop of the linear trainer with the early-stopping check:
stop when the epoch-over-epoch MSE improvement drops below `tolerance`. -/
def linTrainLoop (inputs outputs : List GoRec) (cfg : Config)
    (features targets : List String) : ℕ → Weights → Weights
  | 0, w => w
  | n + 1, w =>
    let prevMSE := calculateMSE inputs outputs w features targets
    let w' := linEpochStep inputs outputs cfg features targets w
    let currentMSE := calculateMSE inputs outputs w' features targets
    if goAbs (prevMSE - currentMSE) < cfg.tolerance then w'
    else linTrainLoop inputs outputs cfg features targets n w'

/-- Eager weight initialization: a zero entry for every `(feature, target)`
pair and every bias that is not already present. -/
def linInitWeights (features targets : List String) (w : Weights) : Weights :=
  let w := features.foldl (fun w f =>
    targets.foldl (fun w t =>
      let key := f ++ "->" ++ t
      if (w.get key).isSome then w else w.set key 0) w) w
  targets.foldl (fun w t =>
    let key := "bias->" ++ t
    if (w.get key).isSome then w else w.set key 0) w

/-- Embeds `trainLinearModel`: feature names from the first input record, target
names from the first output record, eager weight initialization, then the
epoch loop.  (The source also computes per-target means, but only prints
them.) -/
def trainLinearModel (inputs outputs : List GoRec) (w : Weights) (cfg : Config) :
    Except GoErr Weights :=
  if inputs.length = 0 then .error .invalidInput
  else
    let features := (inputs.headD []).map (·.1)
    if outputs.length = 0 then .error .invalidOutput
    else
      let targets := (outputs.headD []).map (·.1)
      let w := linInitWeights features targets w
      .ok (linTrainLoop inputs outputs cfg features targets cfg.epochs w)

/-- Embeds `splitWeightKey` on the character list: split at the first `"->"`. -/
def splitArrow : List Char → Option (List Char × List Char)
  | [] => none
  | '-' :: '>' :: rest => some ([], rest)
  | c :: rest => (splitArrow rest).map (fun p => (c :: p.1, p.2))

/-- Embeds `splitWeightKey`: the `(feature, target)` parts of a weight key, both
empty when the key contains no `"->"` (the source then returns the two
zero-value strings). -/
def splitWeightKey (key : String) : String × String :=
  match splitArrow key.data with
  | some (a, b) => (⟨a⟩, ⟨b⟩)
  | none => ("", "")

/-- The target set reconstructed from the weight keys (every key's second
part — the predictors' `len(parts) == 2` test is always true), in first-seen
order. -/
def weightTargets (w : Weights) : List String :=
  w.values.foldl (fun acc p =>
    let t := (splitWeightKey p.1).2
    if acc.contains t then acc else acc ++ [t]) []

/-- The inference-time linear combination: iterate over the **input record's
fields**, adding `weight * coerced value` for each field that has a matching
weight, plus the bias when present. -/
def linPredictInput (input : GoRec) (w : Weights) (target : String) : ℚ :=
  let s := input.foldl (fun acc p =>
    match w.getFloat (p.1 ++ "->" ++ target) with
    | none => acc
    | some wt =>
      match featureToFloat p.2 p.1 with
      | none => acc
      | some x => acc + wt * x) 0
  match w.getFloat ("bias->" ++ target) with
  | some b => s + b
  | none => s

/-- The record built by `predictLinearModel` (which never fails). -/
def linPredRec (input : GoRec) (w : Weights) : GoRec :=
  (weightTargets w).foldl (fun r t =>
    setKV r t (.num (linPredictInput input w t))) []

/-- Embeds `predictLinearModel`. -/
def predictLinearModel (input : GoRec) (w : Weights) : Except GoErr GoRec :=
  .ok (linPredRec input w)

/-! ## Logistic trainer / predictor -/

/-- Embeds `sigmoid(z) = 1 / (1 + exp(-z))`. -/
def sigmoid (ops : FloatOps) (z : ℚ) : ℚ :=
  1 / (1 + ops.exp (-z))

/-- The batched logistic gradient for one `(feature, target)` weight:
like the linear one but with `sigmoid` applied to the linear combination and
with **no** mean-normalization of the feature value. -/
def logGradient (ops : FloatOps) (inputs outputs : List GoRec) (w : Weights)
    (features : List String) (target f : String) (batchStart batchEnd : ℕ) : ℚ :=
  let g := (List.range' batchStart (batchEnd - batchStart)).foldl (fun acc i =>
    match (lookupKV (inputs.getD i []) f).bind (featureToFloat · f) with
    | none => acc
    | some fv =>
      let predicted := sigmoid ops (linPredictRow w features (inputs.getD i []) target)
      match actualOf outputs i target with
      | none => acc
      | some actual => acc + (predicted - actual) * fv) 0
  g / ((batchEnd - batchStart : ℕ) : ℚ)

/-- One feature-weight update of the logistic trainer. -/
def logFeatureStep (ops : FloatOps) (inputs outputs : List GoRec) (cfg : Config)
    (features : List String) (target : String) (batchStart batchEnd : ℕ)
    (w : Weights) (f : String) : Weights :=
  let key := f ++ "->" ++ target
  let gradient := logGradient ops inputs outputs w features target f batchStart batchEnd
  let currentWeight := (w.getFloat key).getD 0
  w.set key (currentWeight - cfg.learningRate * (gradient + cfg.regularize * currentWeight))

/-- The batched logistic bias gradient: mean of `sigmoid(z) − actual`. -/
def logBiasGradient (ops : FloatOps) (inputs outputs : List GoRec) (w : Weights)
    (features : List String) (target : String) (batchStart batchEnd : ℕ) : ℚ :=
  let g := (List.range' batchStart (batchEnd - batchStart)).foldl (fun acc i =>
    let predicted := sigmoid ops (linPredictRow w features (inputs.getD i []) target)
    match actualOf outputs i target with
    | none => acc
    | some actual => acc + (predicted - actual)) 0
  g / ((batchEnd - batchStart : ℕ) : ℚ)

/-- The logistic bias update (no regularization term). -/
def logBiasStep (ops : FloatOps) (inputs outputs : List GoRec) (cfg : Config)
    (features : List String) (target : String) (batchStart batchEnd : ℕ)
    (w : Weights) : Weights :=
  let biasKey := "bias->" ++ target
  let biasGradient := logBiasGradient ops inputs outputs w features target batchStart batchEnd
  let currentBias := (w.getFloat biasKey).getD 0
  w.set biasKey (currentBias - cfg.learningRate * biasGradient)

/-- One target for one batch of the logistic trainer. -/
def logTargetBatchStep (ops : FloatOps) (inputs outputs : List GoRec) (cfg : Config)
    (features : List String) (batchStart batchEnd : ℕ) (w : Weights)
    (target : String) : Weights :=
  logBiasStep ops inputs outputs cfg features target batchStart batchEnd
    (features.foldl (logFeatureStep ops inputs outputs cfg features target batchStart batchEnd) w)

/-- One epoch of the logistic trainer. -/
def logEpochStep (ops : FloatOps) (inputs outputs : List GoRec) (cfg : Config)
    (features targets : List String) (w : Weights) : Weights :=
  (batchRanges inputs.length cfg.batchSize).foldl (fun w r =>
    targets.foldl (fun w t =>
      logTargetBatchStep ops inputs outputs cfg features r.1 r.2 w t) w) w

/-- Embeds `calculateLogLoss`: mean of `−[y·log(p) + (1−y)·log(1−p)]` with the
prediction clipped to `[0.0001, 0.9999]`. -/
def calculateLogLoss (ops : FloatOps) (inputs outputs : List GoRec) (w : Weights)
    (features targets : List String) : ℚ :=
  let p := (List.range inputs.length).foldl (fun (p : ℚ × ℕ) i =>
    targets.foldl (fun (p : ℚ × ℕ) t =>
      match actualOf outputs i t with
      | none => p
      | some a =>
        let prediction := sigmoid ops (linPredictRow w features (inputs.getD i []) t)
        let clippedPred := goMax (goMin prediction (9999/10000)) (1/10000)
        let loss := -(a * ops.log clippedPred + (1 - a) * ops.log (1 - clippedPred))
        (p.1 + loss, p.2 + 1)) p) (0, 0)
  if p.2 = 0 then 0 else p.1 / (p.2 : ℚ)

/-- The epoch loop of the logistic trainer with the log-loss early stop. -/
def logTrainLoop (ops : FloatOps) (inputs outputs : List GoRec) (cfg : Config)
    (features targets : List String) : ℕ → Weights → Weights
  | 0, w => w
  | n + 1, w =>
    let prevLoss := calculateLogLoss ops inputs outputs w features targets
    let w' := logEpochStep ops inputs outputs cfg features targets w
    let currentLoss := calculateLogLoss ops inputs outputs w' features targets
    if goAbs (prevLoss - currentLoss) < cfg.tolerance then w'
    else logTrainLoop ops inputs outputs cfg features targets n w'

/-- Embeds `trainLogisticModel`. -/
def trainLogisticModel (ops : FloatOps) (inputs outputs : List GoRec)
    (w : Weights) (cfg : Config) : Except GoErr Weights :=
  if inputs.length = 0 then .error .invalidInput
  else
    let features := (inputs.headD []).map (·.1)
    if outputs.length = 0 then .error .invalidOutput
    else
      let targets := (outputs.headD []).map (·.1)
      let w := linInitWeights features targets w
      .ok (logTrainLoop ops inputs outputs cfg features targets cfg.epochs w)

/-- The record built by `predictLogisticModel` (which never fails): the
sigmoid of the same linear combination the linear predictor computes, for
every target reconstructed from the weight keys. -/
def logPredRec (ops : FloatOps) (input : GoRec) (w : Weights) : GoRec :=
  (weightTargets w).foldl (fun r t =>
    setKV r t (.num (sigmoid ops (linPredictInput input w t)))) []

/-- Embeds `predictLogisticModel`. -/
def predictLogisticModel (ops : FloatOps) (input : GoRec) (w : Weights) :
    Except GoErr GoRec :=
  .ok (logPredRec ops input w)

/-! ## Model descriptor -/

/-- The model structure: variant tag, the `{"bias": true}` parameter marker,
feature/target metadata and the per-target category indices (Go `nil` maps
are modelled as empty lists). -/
structure Model where
  type : String
  parameters : GoRec
  features : GoRec
  targets : GoRec
  categories : List (String × List (String × ℤ))
  featureCategories : List (String × List (String × ℤ))
deriving DecidableEq, Repr

/-- Embeds `NewLinearModel`. -/
def NewLinearModel : Model :=
  { type := "linear", parameters := [("bias", .bool true)],
    features := [], targets := [], categories := [], featureCategories := [] }

/-- Embeds `NewLogisticModel`. -/
def NewLogisticModel : Model :=
  { type := "logistic", parameters := [("bias", .bool true)],
    features := [], targets := [], categories := [], featureCategories := [] }

/-- Embeds `NewCategoricalModel` (its `Categories` map is created empty). -/
def NewCategoricalModel : Model :=
  { type := "categorical", parameters := [("bias", .bool true)],
    features := [], targets := [], categories := [], featureCategories := [] }

/-- Embeds `NewMixedModel` (all four metadata maps created empty). -/
def NewMixedModel : Model :=
  { type := "mixed", parameters := [("bias", .bool true)],
    features := [], targets := [], categories := [], featureCategories := [] }

/-! ## Softmax and the categorical trainer / predictor -/

/-- Embeds `math.MaxFloat64`, exactly `(2 − 2⁻⁵²)·2¹⁰²³`. -/
def maxFloat64 : ℚ := 2 ^ 1024 - 2 ^ 971

/-- Embeds `softmax`: subtract the maximum score (fold started from
`-math.MaxFloat64`), exponentiate, normalize. -/
def softmax (ops : FloatOps) (scores : List (String × ℚ)) : List (String × ℚ) :=
  let maxScore := scores.foldl (fun m p => if p.2 > m then p.2 else m) (-maxFloat64)
  let expScores := scores.map (fun p => (p.1, ops.exp (p.2 - maxScore)))
  let sumExp := (expScores.map (·.2)).sum
  expScores.map (fun p => (p.1, p.2 / sumExp))

/-- A categorical coefficient key `"<feature>-><target>:<category>"`. -/
def catKey (f t c : String) : String := f ++ "->" ++ t ++ ":" ++ c

/-- A categorical bias key `"bias-><target>:<category>"`. -/
def biasCatKey (t c : String) : String := "bias->" ++ t ++ ":" ++ c

/-- The distinct textual labels of target `t` across the training outputs in
first-occurrence order (the keys of the source's `categoryCount` map). -/
def distinctLabels (outputs : List GoRec) (t : String) : List String :=
  outputs.foldl (fun acc row =>
    match lookupKV row t with
    | some v =>
      let c := goFormat v
      if acc.contains c then acc else acc ++ [c]
    | none => acc) []

/-- Index assignment: `idx` starts at 0 **each call** and increments only
when a label absent from the map is inserted; present labels keep their
index. -/
def assignCats (cats : List (String × ℤ)) (labels : List String) :
    List (String × ℤ) :=
  (labels.foldl (fun (p : List (String × ℤ) × ℤ) c =>
    if (lookupKV p.1 c).isSome then p else (setKV p.1 c p.2, p.2 + 1)) (cats, 0)).1

/-- The category-identification phase of `trainCategoricalModel`: for every
target, create its (possibly empty) category map and insert the unseen
labels. -/
def updateCategories (cats : List (String × List (String × ℤ)))
    (targets : List String) (outputs : List GoRec) :
    List (String × List (String × ℤ)) :=
  targets.foldl (fun cs t =>
    let existing := (lookupKV cs t).getD []
    setKV cs t (assignCats existing (distinctLabels outputs t))) cats

/-- The training-time score of one category: weights read with a default of
`0` (no existence check), features iterated from the feature-name list,
bias read with a default of `0`. -/
def catTrainScore (w : Weights) (features : List String) (row : GoRec)
    (t c : String) : ℚ :=
  let s := features.foldl (fun acc f =>
    let featureWeight := (w.getFloat (catKey f t c)).getD 0
    match lookupKV row f with
    | none => acc
    | some v =>
      match featureToFloat v f with
      | none => acc
      | some x => acc + featureWeight * x) 0
  s + (w.getFloat (biasCatKey t c)).getD 0

/-- One stochastic-gradient step of the categorical trainer on example `i`
of target `t`: per-category softmax probabilities, gradient
`probability − indicator(category == actual)`, per-feature update with L2
regularization and a bias update without it.  The whole example is skipped
when the actual output value is missing. -/
def catExampleStep (ops : FloatOps) (inputs outputs : List GoRec) (cfg : Config)
    (features : List String) (t : String) (cats : List String)
    (w : Weights) (i : ℕ) : Weights :=
  let row := inputs.getD i []
  let categoryScores := cats.map (fun c => (c, catTrainScore w features row t c))
  let probabilities := softmax ops categoryScores
  match lookupKV (outputs.getD i []) t with
  | none => w
  | some actualValue =>
    let actualCategory := goFormat actualValue
    cats.foldl (fun w c =>
      let targetProbability : ℚ := if c = actualCategory then 1 else 0
      let gradient := (lookupKV probabilities c).getD 0 - targetProbability
      let w := features.foldl (fun w f =>
        let key := catKey f t c
        let currentWeight := (w.getFloat key).getD 0
        match lookupKV row f with
        | none => w
        | some v =>
          match featureToFloat v f with
          | none => w
          | some x =>
            w.set key (currentWeight -
              cfg.learningRate * (gradient * x + cfg.regularize * currentWeight))) w
      let biasKey := biasCatKey t c
      let currentBias := (w.getFloat biasKey).getD 0
      w.set biasKey (currentBias - cfg.learningRate * gradient)) w

/-- The per-target pass of the categorical trainer: skipped entirely when
the target has at most one category; otherwise eager weight/bias creation
for every `(category, feature)` pair followed by `epochs` passes of
per-example SGD (the batch size is not consulted). -/
def catTargetPass (ops : FloatOps) (inputs outputs : List GoRec) (cfg : Config)
    (features : List String) (cats : List (String × List (String × ℤ)))
    (w : Weights) (t : String) : Weights :=
  let categories := (lookupKV cats t).getD []
  if categories.length ≤ 1 then w
  else
    let labels := categories.map (·.1)
    let w := labels.foldl (fun w c =>
      let w := features.foldl (fun w f =>
        let key := catKey f t c
        if (w.get key).isSome then w else w.set key 0) w
      let biasKey := biasCatKey t c
      if (w.get biasKey).isSome then w else w.set biasKey 0) w
    (List.range cfg.epochs).foldl (fun w _ =>
      (List.range inputs.length).foldl
        (catExampleStep ops inputs outputs cfg features t labels) w) w

/-- Embeds `trainCategoricalModel`: category identification for every target
(mutating the descriptor's `Categories`), then the per-target passes. -/
def trainCategoricalModel (ops : FloatOps) (inputs outputs : List GoRec)
    (w : Weights) (cfg : Config) (m : Model) : Except GoErr (Model × Weights) :=
  if inputs.length = 0 then .error .invalidInput
  else
    let features := (inputs.headD []).map (·.1)
    if outputs.length = 0 then .error .invalidOutput
    else
      let targets := (outputs.headD []).map (·.1)
      let cats' := updateCategories m.categories targets outputs
      let w' := targets.foldl (catTargetPass ops inputs outputs cfg features cats') w
      .ok ({ m with categories := cats' }, w')

/-- The inference-time score of one category: iterate over the **input
record's fields**, adding `weight * coerced value` only for fields whose
weight exists; bias added only when present. -/
def catPredictScore (w : Weights) (input : GoRec) (t c : String) : ℚ :=
  let s := input.foldl (fun acc p =>
    match w.getFloat (catKey p.1 t c) with
    | none => acc
    | some wt =>
      match featureToFloat p.2 p.1 with
      | none => acc
      | some x => acc + wt * x) 0
  match w.getFloat (biasCatKey t c) with
  | some b => s + b
  | none => s

/-- The argmax scan over the probability map: strict improvement over the
running best, started from `("", 0.0)`. -/
def bestOf (probs : List (String × ℚ)) : String × ℚ :=
  probs.foldl (fun best p => if p.2 > best.2 then p else best) ("", 0)

/-- The conversion of the winning category text back to a value: numeric-
looking labels are re-parsed (float when the text contains a `'.'`, int
otherwise), everything else is returned as text. -/
def categoryToValue (c : String) : GoVal :=
  if isNumericStr c then
    if c.contains '.' then
      match stringToFloat64 c with
      | some x => .num x
      | none => .str c
    else
      match stringToInt c with
      | some n => .int n
      | none => .str c
  else .str c

/-- One target of the categorical prediction loop: softmax over the
per-category scores, argmax, and — when the winning label is nonempty — the
re-parsed label plus the `"<target>_probs"` distribution.  A target with an
empty category map is skipped. -/
def catPredStep (ops : FloatOps) (input : GoRec) (w : Weights) (result : GoRec)
    (p : String × List (String × ℤ)) : GoRec :=
  let t := p.1
  if p.2.length ≤ 0 then result
  else
    let categoryScores := p.2.map (fun q => (q.1, catPredictScore w input t q.1))
    let probabilities := softmax ops categoryScores
    let best := bestOf probabilities
    if best.1 ≠ "" then
      let result := setKV result t (categoryToValue best.1)
      setKV result (t ++ "_probs") (.dict probabilities)
    else result

/-- The record built by `predictCategoricalModel` (which never fails). -/
def catPredRec (ops : FloatOps) (input : GoRec) (w : Weights) (m : Model) : GoRec :=
  m.categories.foldl (catPredStep ops input w) []

/-- Embeds `predictCategoricalModel`. -/
def predictCategoricalModel (ops : FloatOps) (input : GoRec) (w : Weights)
    (m : Model) : Except GoErr GoRec :=
  .ok (catPredRec ops input w m)

/-! ## Mixed trainer / predictor -/

/-- The bucket of an output field, inspected from the first output record:
exactly-0-or-1 `int`/`float64` values and booleans are `"boolean"`, other
numerics `"numeric"`, strings `"categorical"`; unknown shapes are skipped. -/
def bucketOf (v : GoVal) : Option String :=
  match v with
  | .int n => some (if n = 0 ∨ n = 1 then "boolean" else "numeric")
  | .num x => some (if x = 0 ∨ x = 1 then "boolean" else "numeric")
  | .bool _ => some "boolean"
  | .str _ => some "categorical"
  | .dict _ => none

/-- The first-record keys falling into a given bucket. -/
def bucketKeys (outputs : List GoRec) (bucket : String) : List String :=
  (outputs.headD []).filterMap (fun p =>
    if bucketOf p.2 = some bucket then some p.1 else none)

/-- One per-bucket output row: the record restricted to the bucket's keys
(in first-record key order), keeping only the keys the row actually has. -/
def restrictRow (keys : List String) (row : GoRec) : GoRec :=
  keys.foldl (fun r k =>
    match lookupKV row k with
    | some v => setKV r k v
    | none => r) []

/-- Embeds `numericTargetCount` and friends: the length of the first nonempty
bucket row (0 when every row is empty). -/
def firstNonemptyLen (rows : List GoRec) : ℕ :=
  ((rows.find? (fun r => !r.isEmpty)).map List.length).getD 0

/-- The `target_types` recording of `trainMixedModel`: for every first-record
field with a known bucket, `model.Targets[key] = bucket`. -/
def mixedTargets (targets : GoRec) (outputs : List GoRec) : GoRec :=
  (outputs.headD []).foldl (fun ts p =>
    match bucketOf p.2 with
    | some b => setKV ts p.1 (.str b)
    | none => ts) targets

/-- Embeds `trainMixedModel`: split the outputs into numeric / categorical /
boolean buckets from the first record, record each field's bucket in
`Targets`, then delegate each nonempty bucket to the matching trainer —
linear, then categorical, then logistic — all sharing one weight store.
Errors are wrapped as in the source's `fmt.Errorf` calls. -/
def trainMixedModel (ops : FloatOps) (inputs outputs : List GoRec)
    (w : Weights) (cfg : Config) (m : Model) : Except GoErr (Model × Weights) :=
  if outputs.length = 0 then .error .invalidOutput
  else
    let numericOutputs := outputs.map (restrictRow (bucketKeys outputs "numeric"))
    let categoricalOutputs := outputs.map (restrictRow (bucketKeys outputs "categorical"))
    let booleanOutputs := outputs.map (restrictRow (bucketKeys outputs "boolean"))
    let m := { m with targets := mixedTargets m.targets outputs }
    let numericTargetCount := firstNonemptyLen numericOutputs
    let categoricalTargetCount := firstNonemptyLen categoricalOutputs
    let booleanTargetCount := firstNonemptyLen booleanOutputs
    match (if numericTargetCount > 0 then
             (trainLinearModel inputs numericOutputs w cfg).mapError
               (GoErr.wrap "error training numeric targets")
           else .ok w) with
    | .error e => .error e
    | .ok w =>
      match (if categoricalTargetCount > 0 then
               (trainCategoricalModel ops inputs categoricalOutputs w cfg m).mapError
                 (GoErr.wrap "error training categorical targets")
             else .ok (m, w)) with
      | .error e => .error e
      | .ok (m, w) =>
        match (if booleanTargetCount > 0 then
                 (trainLogisticModel ops inputs booleanOutputs w cfg).mapError
                   (GoErr.wrap "error training boolean targets")
               else .ok w) with
        | .error e => .error e
        | .ok w => .ok (m, w)

/-- The filter-merge of the linear predictions: keep the fields recorded as
`"numeric"`. -/
def mixedMergeLinear (targets : GoRec) (linearPred : GoRec) (result : GoRec) : GoRec :=
  linearPred.foldl (fun r p =>
    if lookupKV targets p.1 = some (.str "numeric") then setKV r p.1 p.2 else r) result

/-- The filter-merge of the categorical predictions: keep the fields
recorded as `"categorical"`, each together with its `"<target>_probs"`
sibling when the categorical predictor produced one. -/
def mixedMergeCat (targets : GoRec) (catPred : GoRec) (result : GoRec) : GoRec :=
  catPred.foldl (fun r p =>
    if lookupKV targets p.1 = some (.str "categorical") then
      let r := setKV r p.1 p.2
      match lookupKV catPred (p.1 ++ "_probs") with
      | some probs => setKV r (p.1 ++ "_probs") probs
      | none => r
    else r) result

/-- The filter-merge of the logistic predictions: keep the fields recorded
as `"boolean"`, converting a probability to a boolean by the `0.5`
threshold (a non-`float64` value would be copied unchanged). -/
def mixedMergeLog (targets : GoRec) (logPred : GoRec) (result : GoRec) : GoRec :=
  logPred.foldl (fun r p =>
    if lookupKV targets p.1 = some (.str "boolean") then
      match p.2 with
      | .num prob => setKV r p.1 (.bool (decide (prob ≥ 1/2)))
      | v => setKV r p.1 v
    else r) result

/-- Embeds `predictMixedModel`: run all three predictors unconditionally and merge
their outputs by recorded target type — linear first, then categorical
(with `_probs` siblings), then logistic. -/
def predictMixedModel (ops : FloatOps) (input : GoRec) (w : Weights)
    (m : Model) : Except GoErr GoRec :=
  do
    let linearPred ← (predictLinearModel input w).mapError
      (GoErr.wrap "error in linear prediction")
    let result := mixedMergeLinear m.targets linearPred []
    let catPred ← (predictCategoricalModel ops input w m).mapError
      (GoErr.wrap "error in categorical prediction")
    let result := mixedMergeCat m.targets catPred result
    let logPred ← (predictLogisticModel ops input w).mapError
      (GoErr.wrap "error in logistic prediction")
    .ok (mixedMergeLog m.targets logPred result)

/-! ## Automatic model selection -/

/-- One iteration of the flag-gathering loop of `NewAutoModel` over the
state `(hasString, hasBoolean, hasNumeric)`.  The `default` branch consults
`IsSupportedNumericType` (false for every remaining shape here). -/
def autoFlagsStep (fl : Bool × Bool × Bool) (p : String × GoVal) :
    Bool × Bool × Bool :=
  match p.2 with
  | .str _ => (true, fl.2.1, fl.2.2)
  | .bool _ => (fl.1, true, fl.2.2)
  | .int _ => (fl.1, fl.2.1, true)
  | .num _ => (fl.1, fl.2.1, true)
  | v => if IsSupportedNumericType v then (fl.1, fl.2.1, true) else fl

/-- The flag-gathering loop of `NewAutoModel`. -/
def autoFlags (outputSample : GoRec) : Bool × Bool × Bool :=
  outputSample.foldl autoFlagsStep (false, false, false)

/-- One iteration of the binary scan of `NewAutoModel`: an `int`/`float64`
value other than 0/1 refutes `isLogistic`; nothing restores it. -/
def logCheckStep (isLog : Bool) (p : String × GoVal) : Bool :=
  match p.2 with
  | .int n => if n ≠ 0 ∧ n ≠ 1 then false else isLog
  | .num x => if x ≠ 0 ∧ x ≠ 1 then false else isLog
  | _ => isLog

/-- The logistic check of `NewAutoModel`: already logistic when a boolean
output exists; otherwise, when numerics exist, assume logistic until an
`int`/`float64` value other than 0/1 is seen. -/
def isLogisticCheck (outputSample : GoRec) (hasBoolean hasNumeric : Bool) : Bool :=
  if hasBoolean then true
  else if hasNumeric then outputSample.foldl logCheckStep true
  else false

/-- Embeds `NewAutoModel`: mixed when two of the three type flags are set, else
categorical when any string, else logistic per `isLogisticCheck`, else
linear. -/
def NewAutoModel (outputSample : GoRec) : Model :=
  let fl := autoFlags outputSample
  let hasString := fl.1
  let hasBoolean := fl.2.1
  let hasNumeric := fl.2.2
  if (hasString && hasNumeric) || (hasString && hasBoolean) || (hasNumeric && hasBoolean) then
    NewMixedModel
  else if hasString then NewCategoricalModel
  else if isLogisticCheck outputSample hasBoolean hasNumeric then NewLogisticModel
  else NewLinearModel

/-! ## Dispatch and engine -/

/-- Embeds `Model.Train`: dispatch on the variant tag. -/
def Model.train (m : Model) (ops : FloatOps) (inputs outputs : List GoRec)
    (w : Weights) (cfg : Config) : Except GoErr (Model × Weights) :=
  if m.type = "linear" then
    (trainLinearModel inputs outputs w cfg).map (fun w => (m, w))
  else if m.type = "logistic" then
    (trainLogisticModel ops inputs outputs w cfg).map (fun w => (m, w))
  else if m.type = "categorical" then
    trainCategoricalModel ops inputs outputs w cfg m
  else if m.type = "mixed" then
    trainMixedModel ops inputs outputs w cfg m
  else .error .unsupportedModelType

/-- Embeds `Model.Predict`: dispatch on the variant tag. -/
def Model.predict (m : Model) (ops : FloatOps) (input : GoRec) (w : Weights) :
    Except GoErr GoRec :=
  if m.type = "linear" then predictLinearModel input w
  else if m.type = "logistic" then predictLogisticModel ops input w
  else if m.type = "categorical" then predictCategoricalModel ops input w m
  else if m.type = "mixed" then predictMixedModel ops input w m
  else .error .unsupportedModelType

/-- The engine: optional descriptor, optional weight store, a config. -/
structure Engine where
  model : Option Model
  weights : Option Weights
  config : Config
deriving DecidableEq, Repr

/-- Embeds `New()`. -/
def Engine.new : Engine :=
  { model := none, weights := none, config := DefaultConfig }

/-- Embeds `NewAuto(outputSample)`. -/
def NewAuto (outputSample : GoRec) : Engine :=
  { model := some (NewAutoModel outputSample), weights := none,
    config := DefaultConfig }

/-- Embeds `Engine.Train`: descriptor check, shape check, emptiness check, lazy
weight-store creation, then dispatch. -/
def Engine.train (e : Engine) (ops : FloatOps) (inputs outputs : List GoRec) :
    Except GoErr Engine :=
  match e.model with
  | none => .error .modelNotInitialized
  | some m =>
    if inputs.length ≠ outputs.length then .error .shapeMismatch
    else if inputs.length = 0 then .error .emptyTrainingSet
    else
      let w := e.weights.getD ⟨[]⟩
      (m.train ops inputs outputs w e.config).map (fun p =>
        { e with model := some p.1, weights := some p.2 })

/-- Embeds `Engine.Predict`: descriptor check, weight-store check, dispatch. -/
def Engine.predict (e : Engine) (ops : FloatOps) (input : GoRec) :
    Except GoErr GoRec :=
  match e.model with
  | none => .error .modelNotInitialized
  | some m =>
    match e.weights with
    | none => .error .weightsNotInitialized
    | some w => m.predict ops input w

/-- Embeds `TrainAuto`. -/
def TrainAuto (ops : FloatOps) (inputs outputs : List GoRec) :
    Except GoErr Engine :=
  if outputs.length = 0 then .error .invalidOutput
  else (NewAuto (outputs.headD [])).train ops inputs outputs

/-! ## Serialized snapshots

The persisted text forms are modelled at the JSON-value level: `Json` is
the tree a snapshot text denotes.  (Go's `encoding/json` renders a
`float64` as its shortest exactly-round-tripping decimal, so the
text ↔ tree step loses nothing; an omitted `omitempty` map and an empty
map decode to the same `nil`/empty value, so snapshots are encoded with
all fields present.) -/

/-- A JSON value. -/
inductive Json where
  | num (x : ℚ)
  | str (s : String)
  | bool (b : Bool)
  | null
  | obj (fields : List (String × Json))
  | arr (elems : List Json)

/-- Marshalling of one dynamic value.  A Go `int` inside an `interface{}`
map is rendered as a JSON number (and would come back as a `float64`);
model snapshots produced by the library store only strings and booleans in
these maps. -/
def encodeGoVal : GoVal → Json
  | .num x => .num x
  | .int n => .num (n : ℚ)
  | .str s => .str s
  | .bool b => .bool b
  | .dict m => .obj (m.map (fun p => (p.1, .num p.2)))

/-- Unmarshalling of one dynamic value into `interface{}`: numbers become
`float64`, strings and booleans themselves; other shapes are not produced
by the library's snapshots and are rejected. -/
def decodeGoVal : Json → Option GoVal
  | .num x => some (.num x)
  | .str s => some (.str s)
  | .bool b => some (.bool b)
  | _ => none

/-- Marshalling of a `map[string]interface{}` field. -/
def encodeRec (r : GoRec) : Json :=
  .obj (r.map (fun p => (p.1, encodeGoVal p.2)))

/-- Field-by-field unmarshalling of an object's entries; any failing entry
fails the whole decode. -/
def decodeEntries {α : Type} (g : String × Json → Option α) :
    List (String × Json) → Option (List α)
  | [] => some []
  | x :: xs =>
    match g x with
    | none => none
    | some y =>
      match decodeEntries g xs with
      | none => none
      | some ys => some (y :: ys)

/-- Unmarshalling of a `map[string]interface{}` field. -/
def decodeRec : Json → Option GoRec
  | .obj fields =>
    decodeEntries (fun p => (decodeGoVal p.2).map (fun v => (p.1, v))) fields
  | _ => none

/-- Marshalling of a `map[string]map[string]int` field. -/
def encodeCats (cs : List (String × List (String × ℤ))) : Json :=
  .obj (cs.map (fun p => (p.1, .obj (p.2.map (fun q => (q.1, .num (q.2 : ℚ)))))))

/-- Unmarshalling of one `map[string]int`: an integral JSON number decodes
into `int`, anything else is a type error. -/
def decodeIdxMap : Json → Option (List (String × ℤ))
  | .obj fields => decodeEntries (fun p =>
      match p.2 with
      | .num x => if x.den = 1 then some (p.1, x.num) else none
      | _ => none) fields
  | _ => none

/-- Unmarshalling of a `map[string]map[string]int` field. -/
def decodeCats : Json → Option (List (String × List (String × ℤ)))
  | .obj fields =>
    decodeEntries (fun p => (decodeIdxMap p.2).map (fun v => (p.1, v))) fields
  | _ => none

/-- Embeds `Model.JSON` at the JSON-value level. -/
def Model.toJson (m : Model) : Json :=
  .obj [("type", .str m.type),
        ("parameters", encodeRec m.parameters),
        ("features", encodeRec m.features),
        ("targets", encodeRec m.targets),
        ("categories", encodeCats m.categories),
        ("feature_categories", encodeCats m.featureCategories)]

/-- Embeds `json.Unmarshal` into a `Model`. -/
def decodeModel (j : Json) : Option Model :=
  match j with
  | .obj fields => do
    let ty ← match lookupKV fields "type" with
      | some (.str s) => some s
      | _ => none
    let ps ← (lookupKV fields "parameters").bind decodeRec
    let fs ← (lookupKV fields "features").bind decodeRec
    let ts ← (lookupKV fields "targets").bind decodeRec
    let cs ← (lookupKV fields "categories").bind decodeCats
    let fcs ← (lookupKV fields "feature_categories").bind decodeCats
    some { type := ty, parameters := ps, features := fs, targets := ts,
           categories := cs, featureCategories := fcs }
  | _ => none

/-- Embeds `Weights.JSON` at the JSON-value level: `{"values": {...}}`. -/
def Weights.toJson (w : Weights) : Json :=
  .obj [("values", .obj (w.values.map (fun p => (p.1, .num p.2))))]

/-- Embeds `json.Unmarshal` into `Weights` (every value comes back as `float64`). -/
def decodeWeights (j : Json) : Option Weights :=
  match j with
  | .obj fields =>
    match lookupKV fields "values" with
    | some (.obj vs) =>
      (decodeEntries (fun p => match p.2 with
        | .num x => some (p.1, x)
        | _ => none) vs).map Weights.mk
    | _ => none
  | _ => none

/-- Embeds `Engine.GetModel`. -/
def Engine.getModel (e : Engine) : Except GoErr Json :=
  match e.model with
  | none => .error .modelNotInitialized
  | some m => .ok m.toJson

/-- Embeds `Engine.GetWeights`. -/
def Engine.getWeights (e : Engine) : Except GoErr Json :=
  match e.weights with
  | none => .error .weightsNotInitialized
  | some w => .ok w.toJson

/-- Embeds `Engine.WithModel`: parse and replace the descriptor. -/
def Engine.withModel (e : Engine) (j : Json) : Except GoErr Engine :=
  match decodeModel j with
  | none => .error .unmarshalError
  | some m => .ok { e with model := some m }

/-- Embeds `Engine.WithWeights`: parse and replace the weight store. -/
def Engine.withWeights (e : Engine) (j : Json) : Except GoErr Engine :=
  match decodeWeights j with
  | none => .error .unmarshalError
  | some w => .ok { e with weights := some w }

/-- The value shapes Go's `interface{}`-map round-trip preserves exactly:
no `int`s (they come back as `float64`) and no nested maps.  Every model
the library builds satisfies this (those maps hold only strings and the
`{"bias": true}` marker). -/
def jsonStableVal : GoVal → Prop
  | .num _ => True
  | .str _ => True
  | .bool _ => True
  | _ => False

instance (v : GoVal) : Decidable (jsonStableVal v) := by
  cases v <;> simp [jsonStableVal] <;> infer_instance

/-- A model whose metadata maps survive the snapshot round-trip verbatim. -/
def Model.jsonStable (m : Model) : Prop :=
  (∀ p ∈ m.parameters, jsonStableVal p.2) ∧
  (∀ p ∈ m.features, jsonStableVal p.2) ∧
  (∀ p ∈ m.targets, jsonStableVal p.2)

/-! ## Concrete instances used by the witnesses -/

/-- A concrete stand-in for `math.Exp`/`math.Log` used to evaluate the
embedding on closed inputs (`exp ≡ 1` is positive everywhere, which is the
only property the theorems assume). -/
def unitOps : FloatOps := ⟨fun _ => 1, fun _ => 0⟩

/-- A small concrete training configuration. -/
def smallCfg : Config :=
  { learningRate := 1/10, epochs := 1, batchSize := 1, regularize := 0,
    tolerance := 0 }

/-! ## C1: engine-level error contract -/

/-- Claim **C1.** For every engine: `Train` fails with `ModelNotInitialized` when
no descriptor is set; otherwise with `ShapeMismatch` when the input and
output counts differ; otherwise with `EmptyTrainingSet` when the sequences
are empty.  `Predict` fails with `ModelNotInitialized` when no descriptor is
set, and with `WeightsNotInitialized` when a descriptor is present but the
weight store is absent. -/
theorem engine_error_contract (e : Engine) (ops : FloatOps)
    (inputs outputs : List GoRec) (input : GoRec) :
    (e.model = none → e.train ops inputs outputs = .error .modelNotInitialized) ∧
    (e.model ≠ none → inputs.length ≠ outputs.length →
      e.train ops inputs outputs = .error .shapeMismatch) ∧
    (e.model ≠ none → inputs.length = outputs.length → inputs = [] →
      e.train ops inputs outputs = .error .emptyTrainingSet) ∧
    (e.model = none → e.predict ops input = .error .modelNotInitialized) ∧
    (e.model ≠ none → e.weights = none →
      e.predict ops input = .error .weightsNotInitialized) := by
  refine ⟨?_, ?_, ?_, ?_, ?_⟩
  · intro h
    simp [Engine.train, h]
  · intro h hne
    obtain ⟨m, hm⟩ := Option.ne_none_iff_exists'.mp h
    simp [Engine.train, hm, hne]
  · intro h heq hempty
    obtain ⟨m, hm⟩ := Option.ne_none_iff_exists'.mp h
    subst hempty
    simp [Engine.train, hm, heq.symm]
  · intro h
    simp [Engine.predict, h]
  · intro h hw
    obtain ⟨m, hm⟩ := Option.ne_none_iff_exists'.mp h
    simp [Engine.predict, hm, hw]

/-- An engine holding a linear descriptor but no weights. -/
def linEngineNoWeights : Engine :=
  { model := some NewLinearModel, weights := none, config := DefaultConfig }

/-- Witness for `engine_error_contract` at concrete engines. -/
theorem engine_error_contract_witness :
    Engine.new.train unitOps [] [] = .error .modelNotInitialized ∧
    linEngineNoWeights.train unitOps [[("x", GoVal.num 1)]] [] = .error .shapeMismatch ∧
    linEngineNoWeights.train unitOps [] [] = .error .emptyTrainingSet ∧
    Engine.new.predict unitOps [] = .error .modelNotInitialized ∧
    linEngineNoWeights.predict unitOps [] = .error .weightsNotInitialized :=
  ⟨(engine_error_contract Engine.new unitOps [] [] []).1 rfl,
   (engine_error_contract linEngineNoWeights unitOps [[("x", GoVal.num 1)]] [] []).2.1
     (by simp [linEngineNoWeights]) (by decide),
   (engine_error_contract linEngineNoWeights unitOps [] [] []).2.2.1
     (by simp [linEngineNoWeights]) rfl rfl,
   (engine_error_contract Engine.new unitOps [] [] []).2.2.2.1 rfl,
   (engine_error_contract linEngineNoWeights unitOps [] [] []).2.2.2.2
     (by simp [linEngineNoWeights]) rfl⟩

/-! ## C2, C3: automatic model selection -/

/-- Is the value a string? -/
def hasStringVal : GoVal → Bool
  | .str _ => true
  | _ => false

/-- Is the value a boolean? -/
def hasBoolVal : GoVal → Bool
  | .bool _ => true
  | _ => false

/-- Is the value, when it is an `int` or a `float64`, exactly 0 or 1?
(Other shapes impose no constraint in the logistic scan.) -/
def binary01 : GoVal → Bool
  | .int n => decide (n = 0 ∨ n = 1)
  | .num x => decide (x = 0 ∨ x = 1)
  | _ => true

/-- The auto-selection rule as the code implements it, written
independently of the implementation's fold structure: mixed when the sample
combines two or more of {string, boolean, numeric} — where *numeric* means
any `int`/`float64`, 0/1 values included — else categorical when any string,
else logistic when any boolean or when every numeric value is exactly 0 or
1, else linear. -/
def autoClassAmended (sample : GoRec) : String :=
  let hasS := sample.any (fun p => hasStringVal p.2)
  let hasB := sample.any (fun p => hasBoolVal p.2)
  let hasN := sample.any (fun p => IsSupportedNumericType p.2)
  if (hasS && hasN) || (hasS && hasB) || (hasN && hasB) then "mixed"
  else if hasS then "categorical"
  else if hasB || (hasN && sample.all (fun p => binary01 p.2)) then "logistic"
  else "linear"

theorem autoFlags_eq (sample : GoRec) :
    autoFlags sample = (sample.any (fun p => hasStringVal p.2),
                        sample.any (fun p => hasBoolVal p.2),
                        sample.any (fun p => IsSupportedNumericType p.2)) := by
  suffices h : ∀ a b c : Bool,
      sample.foldl autoFlagsStep (a, b, c)
      = (a || sample.any (fun p => hasStringVal p.2),
         b || sample.any (fun p => hasBoolVal p.2),
         c || sample.any (fun p => IsSupportedNumericType p.2)) by
    simpa [autoFlags] using h false false false
  induction sample with
  | nil => intro a b c; simp
  | cons p rest ih =>
    intro a b c
    obtain ⟨k, v⟩ := p
    cases v <;>
      simp [List.any_cons, autoFlagsStep, ih, hasStringVal, hasBoolVal,
            IsSupportedNumericType, Bool.or_assoc]

theorem isLogisticCheck_eq (sample : GoRec) (hB hN : Bool) :
    isLogisticCheck sample hB hN
      = (hB || (hN && sample.all (fun p => binary01 p.2))) := by
  cases hB with
  | true => simp [isLogisticCheck]
  | false =>
    cases hN with
    | false => simp [isLogisticCheck]
    | true =>
      suffices h : ∀ init : Bool,
          sample.foldl logCheckStep init
          = (init && sample.all (fun p => binary01 p.2)) by
        simpa [isLogisticCheck] using h true
      induction sample with
      | nil => intro init; simp
      | cons p rest ih =>
        intro init
        obtain ⟨k, v⟩ := p
        cases v with
        | int n =>
          by_cases h0 : n = 0 ∨ n = 1
          · have h1 : ¬(n ≠ 0 ∧ n ≠ 1) := by tauto
            have h2 : (decide (n = 0) || decide (n = 1)) = true := by
              rcases h0 with h | h <;> simp [h]
            simp [logCheckStep, h1, ih, binary01, h2]
          · have h1 : n ≠ 0 ∧ n ≠ 1 := by tauto
            simp [logCheckStep, h1, h0, ih, binary01]
        | num x =>
          by_cases h0 : x = 0 ∨ x = 1
          · have h1 : ¬(x ≠ 0 ∧ x ≠ 1) := by tauto
            have h2 : (decide (x = 0) || decide (x = 1)) = true := by
              rcases h0 with h | h <;> simp [h]
            simp [logCheckStep, h1, ih, binary01, h2]
          · have h1 : x ≠ 0 ∧ x ≠ 1 := by tauto
            simp [logCheckStep, h1, h0, ih, binary01]
        | str s => simp [logCheckStep, ih, binary01]
        | bool b => simp [logCheckStep, ih, binary01]
        | dict d => simp [logCheckStep, ih, binary01]

/-- Claim **C2 (amended).** `NewAutoModel` classifies by the three *type* flags
{string, boolean, numeric}: mixed when two or more are present (a numeric
0-or-1 value counts as numeric, not as boolean), else categorical on any
string, else logistic when a boolean is present or every `int`/`float64`
value is exactly 0 or 1, else linear. -/
theorem auto_selection_rule (sample : GoRec) :
    (NewAutoModel sample).type = autoClassAmended sample := by
  simp only [NewAutoModel, autoClassAmended, autoFlags_eq, isLogisticCheck_eq]
  split_ifs <;> rfl

/-- Claim **C2 (counterexample).** A sample holding one boolean and one numeric
0-or-1 value is classified *mixed*, not logistic as the claim states. -/
theorem auto_bool_plus_binary_mixed :
    (NewAutoModel [("a", GoVal.bool true), ("b", GoVal.num 1)]).type = "mixed" ∧
    (NewAutoModel [("a", GoVal.bool true), ("b", GoVal.num 1)]).type ≠ "logistic" :=
  ⟨rfl, by decide⟩

/-- Claim **C3 (counterexample).** `createAuto` on the output sample `{"v":1.0}`
selects the *logistic* variant (1.0 is a binary value), not linear as the
claim states. -/
theorem createAuto_num1_not_linear :
    (NewAuto [("v", GoVal.num 1)]).model.map Model.type = some "logistic" ∧
    (NewAuto [("v", GoVal.num 1)]).model.map Model.type ≠ some "linear" :=
  ⟨rfl, by decide⟩

/-- Claim **C3 (amended).** `createAuto` classification: `{"v":1.0}` → logistic,
`{"v":true}` → logistic, `{"v":"red"}` → categorical,
`{"v":"red","n":1.0}` → mixed. -/
theorem createAuto_examples :
    (NewAuto [("v", GoVal.num 1)]).model.map Model.type = some "logistic" ∧
    (NewAuto [("v", GoVal.bool true)]).model.map Model.type = some "logistic" ∧
    (NewAuto [("v", GoVal.str "red")]).model.map Model.type = some "categorical" ∧
    (NewAuto [("v", GoVal.str "red"), ("n", GoVal.num 1)]).model.map Model.type
      = some "mixed" :=
  ⟨rfl, rfl, rfl, rfl⟩

/-! ## C4: boolean field values are skipped, not coerced -/

unseal Rat.mul Rat.add Rat.sub Rat.inv in
/-- Claim **C4 (code bug).** The inline feature/target type switches used by the
trainers and predictors have no `bool` case, so a boolean field value falls
into the default branch and is skipped — while the documented shared
coercion (`ConvertToFloat64`) maps `true` to `1.0`.  Consequently, training
a logistic model on the single example `{"f": true} → {"y": 1}` never moves
the `"f->y"` weight (the boolean feature contributes nothing), though the
bias does move. -/
theorem boolean_fields_skipped :
    featureToFloat (GoVal.bool true) "f" = none ∧
    actualToFloat (GoVal.bool true) = none ∧
    ConvertToFloat64 (GoVal.bool true) "f" = some 1 ∧
    trainLogisticModel unitOps [[("f", GoVal.bool true)]] [[("y", GoVal.int 1)]]
      ⟨[]⟩ smallCfg = .ok ⟨[("f->y", 0), ("bias->y", 1/20)]⟩ :=
  ⟨rfl, rfl, rfl, by decide⟩

/-! ## C7: categorical probability distributions -/

/-- A probability list summing to one with every entry in `[0, 1]`. -/
def unitDistribution (pm : List (String × ℚ)) : Prop :=
  (pm.map (·.2)).sum = 1 ∧ ∀ q ∈ pm.map (·.2), 0 ≤ q ∧ q ≤ 1

theorem sum_map_div (l : List ℚ) (c : ℚ) : (l.map (· / c)).sum = l.sum / c := by
  induction l with
  | nil => simp
  | cons x rest ih => simp [ih, add_div]

theorem div_sum_unitDistribution (es : List (String × ℚ)) (hne : es ≠ [])
    (hpos : ∀ p ∈ es, 0 < p.2) :
    unitDistribution (es.map (fun p => (p.1, p.2 / (es.map (·.2)).sum))) := by
  have hS : 0 < (es.map (·.2)).sum := by
    apply List.sum_pos
    · intro x hx
      obtain ⟨p, hp, rfl⟩ := List.mem_map.mp hx
      exact hpos p hp
    · simpa using hne
  constructor
  · have h1 : ((es.map (fun p => (p.1, p.2 / (es.map (·.2)).sum))).map (·.2))
        = (es.map (·.2)).map (· / (es.map (·.2)).sum) := by
      simp only [List.map_map]
      rfl
    rw [h1, sum_map_div, div_self (ne_of_gt hS)]
  · intro q hq
    simp only [List.map_map, List.mem_map, Function.comp] at hq
    obtain ⟨p, hp, rfl⟩ := hq
    have hle : p.2 ≤ (es.map (·.2)).sum := by
      refine List.single_le_sum ?_ _ (List.mem_map.mpr ⟨p, hp, rfl⟩)
      intro x hx
      obtain ⟨r, hr, rfl⟩ := List.mem_map.mp hx
      exact le_of_lt (hpos r hr)
    exact ⟨div_nonneg (le_of_lt (hpos p hp)) (le_of_lt hS), (div_le_one hS).mpr hle⟩

theorem softmax_unitDistribution (ops : FloatOps) (hE : ∀ x, 0 < ops.exp x)
    (scores : List (String × ℚ)) (h : scores ≠ []) :
    unitDistribution (softmax ops scores) := by
  unfold softmax
  refine div_sum_unitDistribution _ (by simpa using h) ?_
  intro p hp
  obtain ⟨q, _, rfl⟩ := List.mem_map.mp hp
  exact hE _

theorem categoryToValue_ne_dict (c : String) (d : List (String × ℚ)) :
    categoryToValue c ≠ GoVal.dict d := by
  unfold categoryToValue
  split_ifs <;> first | (split <;> simp) | simp

theorem catPredStep_dict_inv (ops : FloatOps) (input : GoRec) (w : Weights)
    (hE : ∀ x, 0 < ops.exp x) (init : GoRec) (p : String × List (String × ℤ))
    (hinit : ∀ k pm, lookupKV init k = some (.dict pm) → unitDistribution pm) :
    ∀ k pm, lookupKV (catPredStep ops input w init p) k = some (.dict pm) →
      unitDistribution pm := by
  intro k pm hk
  unfold catPredStep at hk
  by_cases hlen : p.2.length ≤ 0
  · rw [if_pos hlen] at hk
    exact hinit k pm hk
  · rw [if_neg hlen] at hk
    have hne : p.2.map (fun q => (q.1, catPredictScore w input p.1 q.1)) ≠ [] := by
      intro habs
      apply hlen
      simp only [List.map_eq_nil_iff] at habs
      simp [habs]
    set probs := softmax ops (p.2.map (fun q => (q.1, catPredictScore w input p.1 q.1)))
      with hprobs
    have hgood : unitDistribution probs := softmax_unitDistribution ops hE _ hne
    by_cases hbest : (bestOf probs).1 ≠ ""
    · rw [if_pos hbest] at hk
      by_cases hkey : (p.1 ++ "_probs") = k
      · rw [← hkey, lookupKV_setKV_self] at hk
        injection hk with hk
        injection hk with hk
        rw [← hk]
        exact hgood
      · rw [lookupKV_setKV_ne _ _ _ _ hkey] at hk
        by_cases hkey2 : p.1 = k
        · rw [← hkey2, lookupKV_setKV_self] at hk
          injection hk with hk
          exact absurd hk (categoryToValue_ne_dict _ _)
        · rw [lookupKV_setKV_ne _ _ _ _ hkey2] at hk
          exact hinit k pm hk
    · rw [if_neg hbest] at hk
      exact hinit k pm hk

/-- Claim **C7.** Every `"<target>_probs"` map returned by the categorical
predictor is a probability distribution: it sums to exactly 1 (hence to
`1.0 ± 1e-6`) and every value lies in `[0, 1]`.  The only assumption is the
positivity of the exponential. -/
theorem catPredict_probs_distribution (ops : FloatOps) (input : GoRec)
    (w : Weights) (m : Model) (hE : ∀ x, 0 < ops.exp x) :
    ∀ r, predictCategoricalModel ops input w m = .ok r →
    ∀ k pm, lookupKV r k = some (.dict pm) → unitDistribution pm := by
  intro r hr
  have hr' : r = catPredRec ops input w m := by
    unfold predictCategoricalModel at hr
    injection hr with hr
    exact hr.symm
  subst hr'
  unfold catPredRec
  suffices h : ∀ (cats : List (String × List (String × ℤ))) (init : GoRec),
      (∀ k pm, lookupKV init k = some (.dict pm) → unitDistribution pm) →
      ∀ k pm, lookupKV (cats.foldl (catPredStep ops input w) init) k
        = some (.dict pm) → unitDistribution pm by
    refine h m.categories [] ?_
    intro k pm hk
    simp [lookupKV] at hk
  intro cats
  induction cats with
  | nil => intro init hinit; exact hinit
  | cons p rest ih =>
    intro init hinit
    exact ih (catPredStep ops input w init p)
      (catPredStep_dict_inv ops input w hE init p hinit)

/-- A concrete trained-shape categorical model for the C7 witness. -/
def twoCatModel : Model :=
  { NewCategoricalModel with categories := [("t", [("a", 0), ("b", 1)])] }

unseal Rat.mul Rat.add Rat.sub Rat.inv in
/-- Witness for `catPredict_probs_distribution`: with `exp ≡ 1` the two
categories of `twoCatModel` get probability `1/2` each. -/
theorem catPredict_probs_distribution_witness :
    (∀ x : ℚ, 0 < unitOps.exp x) ∧
    unitDistribution [("a", 1/2), ("b", 1/2)] :=
  ⟨fun _ => one_pos,
   catPredict_probs_distribution unitOps [("x", GoVal.num 1)] ⟨[]⟩ twoCatModel
     (fun _ => one_pos) _ rfl "t_probs" [("a", 1/2), ("b", 1/2)] (by decide)⟩

/-! ## C8: monotone growth of the categories mapping -/

/-- Lookup of one `(target, label)` index in a categories mapping. -/
def lookupCat (cs : List (String × List (String × ℤ))) (t l : String) : Option ℤ :=
  (lookupKV cs t).bind (fun cm => lookupKV cm l)

theorem assignCats_fold_preserves (labels : List String) :
    ∀ (st : List (String × ℤ) × ℤ) (l : String) (i : ℤ),
      lookupKV st.1 l = some i →
      lookupKV ((labels.foldl (fun (p : List (String × ℤ) × ℤ) c =>
        if (lookupKV p.1 c).isSome then p else (setKV p.1 c p.2, p.2 + 1)) st)).1 l
        = some i := by
  induction labels with
  | nil => intro st l i h; exact h
  | cons c rest ih =>
    intro st l i h
    simp only [List.foldl_cons]
    by_cases hc : (lookupKV st.1 c).isSome
    · rw [if_pos hc]
      exact ih st l i h
    · rw [if_neg hc]
      refine ih _ l i ?_
      have hcl : c ≠ l := by
        intro habs
        rw [habs, h] at hc
        simp at hc
      simpa [lookupKV_setKV_ne _ _ _ _ hcl] using h

theorem assignCats_preserves (cats : List (String × ℤ)) (labels : List String)
    (l : String) (i : ℤ) (h : lookupKV cats l = some i) :
    lookupKV (assignCats cats labels) l = some i :=
  assignCats_fold_preserves labels (cats, 0) l i h

theorem updateCategories_preserves (outputs : List GoRec) (targets : List String) :
    ∀ (cs : List (String × List (String × ℤ))) (t l : String) (i : ℤ),
      lookupCat cs t l = some i →
      lookupCat (updateCategories cs targets outputs) t l = some i := by
  induction targets with
  | nil => intro cs t l i h; exact h
  | cons t' rest ih =>
    intro cs t l i h
    unfold updateCategories at ih ⊢
    simp only [List.foldl_cons]
    refine ih _ t l i ?_
    obtain ⟨cm, hcm, hl⟩ : ∃ cm, lookupKV cs t = some cm ∧ lookupKV cm l = some i := by
      unfold lookupCat at h
      cases hx : lookupKV cs t with
      | none => rw [hx] at h; simp at h
      | some cm => rw [hx] at h; exact ⟨cm, rfl, h⟩
    unfold lookupCat
    by_cases ht : t' = t
    · subst ht
      rw [lookupKV_setKV_self, hcm]
      simp only [Option.getD_some, Option.some_bind]
      exact assignCats_preserves cm _ l i hl
    · rw [lookupKV_setKV_ne _ _ _ _ ht, hcm]
      exact hl

theorem except_bind_ok {ε α β : Type} (e : Except ε α) (f : α → Except ε β)
    (b : β) (h : e >>= f = .ok b) : ∃ a, e = .ok a ∧ f a = .ok b := by
  cases e with
  | error err => simp [Bind.bind, Except.bind] at h
  | ok a => exact ⟨a, rfl, by simpa [Bind.bind, Except.bind] using h⟩

theorem except_mapError_ok {ε ε' α : Type} (e : Except ε α) (g : ε → ε') (a : α)
    (h : e.mapError g = .ok a) : e = .ok a := by
  cases e with
  | error err => simp [Except.mapError] at h
  | ok x => simpa [Except.mapError] using h

theorem trainCategoricalModel_ok_categories (ops : FloatOps)
    (inputs outputs : List GoRec) (w : Weights) (cfg : Config) (m m' : Model)
    (w' : Weights)
    (h : trainCategoricalModel ops inputs outputs w cfg m = .ok (m', w')) :
    m'.categories
      = updateCategories m.categories ((outputs.headD []).map (·.1)) outputs := by
  unfold trainCategoricalModel at h
  split_ifs at h
  injection h with h
  injection h with h1 h2
  rw [← h1]

/-- Claim **C8.** Categorical and mixed training only grow the descriptor's
`categories` mapping: every `(target, label, index)` entry present before
the call is present with the same index after it — labels are never
removed and indices never reassigned. -/
theorem categories_grow_monotone (ops : FloatOps) (inputs outputs : List GoRec)
    (w : Weights) (cfg : Config) (m m' : Model) (w' : Weights) (t l : String)
    (i : ℤ) :
    (trainCategoricalModel ops inputs outputs w cfg m = .ok (m', w') →
      lookupCat m.categories t l = some i →
      lookupCat m'.categories t l = some i) ∧
    (trainMixedModel ops inputs outputs w cfg m = .ok (m', w') →
      lookupCat m.categories t l = some i →
      lookupCat m'.categories t l = some i) := by
  constructor
  · intro h hpre
    rw [trainCategoricalModel_ok_categories ops inputs outputs w cfg m m' w' h]
    exact updateCategories_preserves outputs _ m.categories t l i hpre
  · intro h hpre
    unfold trainMixedModel at h
    by_cases h0 : outputs.length = 0
    · rw [if_pos h0] at h
      simp at h
    rw [if_neg h0] at h
    simp only [] at h
    split at h
    · simp at h
    rename_i w1 hw1
    split at h
    · simp at h
    rename_i p m2 w2 hc
    split at h
    · simp at h
    rename_i w3 hw3
    have hm2 : m2 = m' := by
      injection h with h
      exact congrArg Prod.fst h
    rw [← hm2]
    split_ifs at hc with hcat
    · have hcall := except_mapError_ok _ _ _ hc
      have hcats := trainCategoricalModel_ok_categories ops inputs
        (outputs.map (restrictRow (bucketKeys outputs "categorical"))) w1 cfg
        { m with targets := mixedTargets m.targets outputs } m2 w2 hcall
      rw [hcats]
      exact updateCategories_preserves _ _ m.categories t l i hpre
    · injection hc with hc
      injection hc with hc1 hc2
      rw [← hc1]
      exact hpre

/-- A categorical model carrying a previously assigned `(t, old) ↦ 5`
entry. -/
def preCatModel : Model :=
  { NewCategoricalModel with categories := [("t", [("old", 5)])] }

/-- The zero-epoch configuration used by the monotonicity witnesses. -/
def zeroEpochCfg : Config :=
  { learningRate := 1/10, epochs := 0, batchSize := 1, regularize := 0,
    tolerance := 0 }

/-- A mixed model carrying a previously assigned `(c, z) ↦ 3` entry. -/
def preMixModel : Model :=
  { NewMixedModel with categories := [("c", [("z", 3)])] }

unseal Rat.mul Rat.add Rat.sub Rat.inv in
/-- Witness for `categories_grow_monotone`: re-training on a new label keeps
the old label's index, both for direct categorical training and through the
mixed trainer. -/
theorem categories_grow_monotone_witness :
    (trainCategoricalModel unitOps [[("x", GoVal.num 1)]] [[("t", GoVal.str "b")]]
        ⟨[]⟩ zeroEpochCfg preCatModel
      = .ok ({ NewCategoricalModel with categories := [("t", [("old", 5), ("b", 0)])] },
             ⟨[("x->t:old", 0), ("bias->t:old", 0), ("x->t:b", 0), ("bias->t:b", 0)]⟩)) ∧
    lookupCat [("t", [("old", 5), ("b", 0)])] "t" "old" = some 5 ∧
    (trainMixedModel unitOps [[("x", GoVal.num 1)]] [[("c", GoVal.str "a")]]
        ⟨[]⟩ zeroEpochCfg preMixModel
      = .ok ({ NewMixedModel with targets := [("c", GoVal.str "categorical")],
                                  categories := [("c", [("z", 3), ("a", 0)])] },
             ⟨[("x->c:z", 0), ("bias->c:z", 0), ("x->c:a", 0), ("bias->c:a", 0)]⟩)) ∧
    lookupCat [("c", [("z", 3), ("a", 0)])] "c" "z" = some 3 :=
  ⟨by decide,
   (categories_grow_monotone unitOps [[("x", GoVal.num 1)]] [[("t", GoVal.str "b")]]
      ⟨[]⟩ zeroEpochCfg preCatModel
      { NewCategoricalModel with categories := [("t", [("old", 5), ("b", 0)])] }
      ⟨[("x->t:old", 0), ("bias->t:old", 0), ("x->t:b", 0), ("bias->t:b", 0)]⟩
      "t" "old" 5).1 (by decide) (by decide),
   by decide,
   (categories_grow_monotone unitOps [[("x", GoVal.num 1)]] [[("c", GoVal.str "a")]]
      ⟨[]⟩ zeroEpochCfg preMixModel
      { NewMixedModel with targets := [("c", GoVal.str "categorical")],
                           categories := [("c", [("z", 3), ("a", 0)])] }
      ⟨[("x->c:z", 0), ("bias->c:z", 0), ("x->c:a", 0), ("bias->c:a", 0)]⟩
      "c" "z" 3).2 (by decide) (by decide)⟩

/-! ## C10: single-label categorical targets -/

theorem append_probs_ne (s : String) : s ++ "_probs" ≠ s := by
  intro h
  have hlen := congrArg String.length h
  rw [String.length_append] at hlen
  have h6 : ("_probs" : String).length = 6 := rfl
  omega

unseal Rat.mul Rat.add Rat.sub Rat.inv in
/-- Claim **C10 (counterexample).** When the single distinct label is the empty
string, the argmax guard `bestCategory != ""` rejects it: training assigns
the label index and creates no weights, but the subsequent prediction omits
the target entirely (the result record is empty), contradicting the claim
that every prediction still returns the label. -/
theorem single_empty_label_not_returned :
    trainCategoricalModel unitOps [[("x", GoVal.num 1)]] [[("t", GoVal.str "")]]
        ⟨[]⟩ smallCfg NewCategoricalModel
      = .ok ({ NewCategoricalModel with categories := [("t", [("", 0)])] }, ⟨[]⟩) ∧
    predictCategoricalModel unitOps [("x", GoVal.num 2)] ⟨[]⟩
        { NewCategoricalModel with categories := [("t", [("", 0)])] }
      = .ok [] := by
  constructor
  · decide
  · decide

/-- Claim **C10 (amended).** If categorical training runs on outputs whose (only)
target has exactly one distinct, *nonempty* label, then no weights and no
bias are created (the weight store stays empty), the label gets index 0, and
every subsequent prediction returns that label for the target — re-parsed
through `categoryToValue` (integer or float when the text is
numeric-looking) — together with a `"<target>_probs"` map assigning it
probability 1.  (With an empty-string label the target is omitted instead,
see the counterexample.) -/
theorem single_label_target_trivial (ops : FloatOps) (inputs outputs : List GoRec)
    (cfg : Config) (m : Model) (t l : String) (input : GoRec)
    (hE : ∀ x, 0 < ops.exp x) (hl : l ≠ "")
    (hm : m.categories = [])
    (hkeys : (outputs.headD []).map (·.1) = [t])
    (hlbl : distinctLabels outputs t = [l])
    (hin : inputs.length ≠ 0) (hout : outputs.length ≠ 0) :
    trainCategoricalModel ops inputs outputs ⟨[]⟩ cfg m
      = .ok ({ m with categories := [(t, [(l, 0)])] }, ⟨[]⟩) ∧
    ∀ r, predictCategoricalModel ops input ⟨[]⟩
        { m with categories := [(t, [(l, 0)])] } = .ok r →
      lookupKV r t = some (categoryToValue l) ∧
      lookupKV r (t ++ "_probs") = some (.dict [(l, 1)]) := by
  have hcats : updateCategories m.categories [t] outputs = [(t, [(l, 0)])] := by
    unfold updateCategories
    rw [List.foldl_cons, List.foldl_nil, hm]
    have ha : assignCats [] (distinctLabels outputs t) = [(l, 0)] := by
      rw [hlbl]
      rfl
    simp [lookupKV, setKV, ha]
  constructor
  · unfold trainCategoricalModel
    rw [if_neg hin, if_neg hout, hkeys]
    simp only []
    rw [hcats]
    have hpass : catTargetPass ops inputs outputs cfg
        ((inputs.headD []).map (·.1)) [(t, [(l, 0)])] ⟨[]⟩ t = ⟨[]⟩ := by
      unfold catTargetPass
      have hlook : lookupKV [(t, ([(l, 0)] : List (String × ℤ)))] t
          = some [(l, 0)] := by
        simp [lookupKV]
      rw [hlook]
      simp
    rw [List.foldl_cons, List.foldl_nil, hpass]
  · intro r hr
    have hr' : r = catPredRec ops input ⟨[]⟩ { m with categories := [(t, [(l, 0)])] } := by
      unfold predictCategoricalModel at hr
      injection hr with hr
      exact hr.symm
    subst hr'
    have hscore : catPredictScore ⟨[]⟩ input t l = 0 := by
      unfold catPredictScore
      have hfold : ∀ (inp : GoRec) (acc : ℚ),
          inp.foldl (fun acc p =>
            match (Weights.mk []).getFloat (catKey p.1 t l) with
            | none => acc
            | some wt =>
              match featureToFloat p.2 p.1 with
              | none => acc
              | some x => acc + wt * x) acc = acc := by
        intro inp
        induction inp with
        | nil => intro acc; rfl
        | cons p ps ih => intro acc; exact ih acc
      rw [hfold]
      rfl
    have hsm : softmax ops [(l, (0 : ℚ))] = [(l, ops.exp (0 - 0) / ops.exp (0 - 0))] := by
      unfold softmax
      have hmax : (0 : ℚ) > -maxFloat64 := by
        have h1 : (0 : ℚ) < maxFloat64 := by
          unfold maxFloat64
          have h2 : (2 : ℚ) ^ 971 < 2 ^ 1024 := by
            apply pow_lt_pow_right₀ (by norm_num) (by norm_num)
          linarith
        linarith
      rw [List.foldl_cons, List.foldl_nil, if_pos hmax]
      simp
    have hprob : ops.exp (0 - 0) / ops.exp (0 - 0) = 1 :=
      div_self (ne_of_gt (hE _))
    unfold catPredRec
    rw [List.foldl_cons, List.foldl_nil]
    unfold catPredStep
    rw [if_neg (by simp)]
    simp only [List.map_cons, List.map_nil, hscore, hsm, hprob]
    have hbest : bestOf [(l, (1 : ℚ))] = (l, 1) := by
      unfold bestOf
      rw [List.foldl_cons, List.foldl_nil, if_pos (by norm_num)]
    rw [hbest]
    rw [if_pos (by simpa using hl)]
    constructor
    · rw [lookupKV_setKV_ne _ _ _ _ (append_probs_ne t), lookupKV_setKV_self]
    · rw [lookupKV_setKV_self]

unseal Rat.mul Rat.add Rat.sub Rat.inv in
/-- Witness for `single_label_target_trivial` at the single label `"yes"`. -/
theorem single_label_target_trivial_witness :
    trainCategoricalModel unitOps [[("x", GoVal.num 1)]] [[("t", GoVal.str "yes")]]
        ⟨[]⟩ smallCfg NewCategoricalModel
      = .ok ({ NewCategoricalModel with categories := [("t", [("yes", 0)])] }, ⟨[]⟩) ∧
    lookupKV (catPredRec unitOps [("x", GoVal.num 2)] ⟨[]⟩
        { NewCategoricalModel with categories := [("t", [("yes", 0)])] }) "t"
      = some (categoryToValue "yes") ∧
    lookupKV (catPredRec unitOps [("x", GoVal.num 2)] ⟨[]⟩
        { NewCategoricalModel with categories := [("t", [("yes", 0)])] }) ("t" ++ "_probs")
      = some (GoVal.dict [("yes", 1)]) := by
  have h := single_label_target_trivial unitOps [[("x", GoVal.num 1)]]
    [[("t", GoVal.str "yes")]] smallCfg NewCategoricalModel "t" "yes"
    [("x", GoVal.num 2)] (fun _ => one_pos) (by decide) rfl (by decide) (by decide)
    (by decide) (by decide)
  exact ⟨h.1, (h.2 _ rfl).1, (h.2 _ rfl).2⟩

/-! ## C5: the linear weight-update formula -/

theorem foldl_eq_add_sum {β : Type} (F : ℚ → β → ℚ) (g : β → ℚ)
    (hstep : ∀ acc x, F acc x = acc + g x) (l : List β) :
    ∀ acc, l.foldl F acc = acc + (l.map g).sum := by
  induction l with
  | nil => intro acc; simp
  | cons x xs ih =>
    intro acc
    rw [List.foldl_cons, hstep, ih, List.map_cons, List.sum_cons]
    ring

theorem linGradient_eq_mean (inputs outputs : List GoRec) (w : Weights)
    (features : List String) (target f : String) (bs be : ℕ) :
    linGradient inputs outputs w features target f bs be
      = ((List.range' bs (be - bs)).map (fun i =>
            match linNormFeature inputs (inputs.getD i []) f,
                  actualOf outputs i target with
            | some fv, some a =>
                (linPredictRow w features (inputs.getD i []) target - a) * fv
            | _, _ => 0)).sum / ((be - bs : ℕ) : ℚ) := by
  unfold linGradient
  rw [foldl_eq_add_sum _ (fun i =>
        match linNormFeature inputs (inputs.getD i []) f,
              actualOf outputs i target with
        | some fv, some a =>
            (linPredictRow w features (inputs.getD i []) target - a) * fv
        | _, _ => 0) ?hstep (List.range' bs (be - bs)) 0]
  · rw [zero_add]
  case hstep =>
    intro acc i
    cases hn : linNormFeature inputs (inputs.getD i []) f with
    | none => simp only [hn, add_zero]
    | some fv =>
      cases ha : actualOf outputs i target with
      | none => simp only [hn, ha, add_zero]
      | some a => simp only [hn, ha]

theorem linBiasGradient_eq_mean (inputs outputs : List GoRec) (w : Weights)
    (features : List String) (target : String) (bs be : ℕ) :
    linBiasGradient inputs outputs w features target bs be
      = ((List.range' bs (be - bs)).map (fun i =>
            match actualOf outputs i target with
            | some a => linPredictRow w features (inputs.getD i []) target - a
            | none => 0)).sum / ((be - bs : ℕ) : ℚ) := by
  unfold linBiasGradient
  rw [foldl_eq_add_sum _ (fun i =>
        match actualOf outputs i target with
        | some a => linPredictRow w features (inputs.getD i []) target - a
        | none => 0) ?hstep (List.range' bs (be - bs)) 0]
  · rw [zero_add]
  case hstep =>
    intro acc i
    cases ha : actualOf outputs i target with
    | none => simp only [ha, add_zero]
    | some a => simp only [ha]

/-- Claim **C5.** In the linear trainer, for every target, feature and batch: the
feature weight becomes `w − lr·(gradient + regularize·w)` where the gradient
is the mean over the batch of `(prediction − actual) · normalized feature
value` (the normalized value divides a numeric value by the feature's
training-set mean when that mean exists and is nonzero — `linNormFeature`);
the bias becomes `b − lr·mean of (prediction − actual)` with no
regularization term; and the per-target batch pass is exactly the feature
updates in sequence followed by the bias update. -/
theorem linear_weight_update (inputs outputs : List GoRec) (cfg : Config)
    (features : List String) (target f : String) (bs be : ℕ) (w : Weights) :
    (linFeatureStep inputs outputs cfg features target bs be w f).getFloat
        (f ++ "->" ++ target)
      = some ((w.getFloat (f ++ "->" ++ target)).getD 0
          - cfg.learningRate *
            (((List.range' bs (be - bs)).map (fun i =>
                  match linNormFeature inputs (inputs.getD i []) f,
                        actualOf outputs i target with
                  | some fv, some a =>
                      (linPredictRow w features (inputs.getD i []) target - a) * fv
                  | _, _ => 0)).sum / ((be - bs : ℕ) : ℚ)
             + cfg.regularize * (w.getFloat (f ++ "->" ++ target)).getD 0)) ∧
    (linBiasStep inputs outputs cfg features target bs be w).getFloat
        ("bias->" ++ target)
      = some ((w.getFloat ("bias->" ++ target)).getD 0
          - cfg.learningRate *
            (((List.range' bs (be - bs)).map (fun i =>
                 match actualOf outputs i target with
                 | some a => linPredictRow w features (inputs.getD i []) target - a
                 | none => 0)).sum / ((be - bs : ℕ) : ℚ))) ∧
    linTargetBatchStep inputs outputs cfg features bs be w target
      = linBiasStep inputs outputs cfg features target bs be
          (features.foldl (linFeatureStep inputs outputs cfg features target bs be) w) := by
  refine ⟨?_, ?_, rfl⟩
  · unfold linFeatureStep
    show (Weights.set _ _ _).getFloat _ = _
    unfold Weights.set Weights.getFloat
    rw [lookupKV_setKV_self, linGradient_eq_mean]
  · unfold linBiasStep
    show (Weights.set _ _ _).getFloat _ = _
    unfold Weights.set Weights.getFloat
    rw [lookupKV_setKV_self, linBiasGradient_eq_mean]

/-! ## C6: snapshot round trip -/

theorem decodeGoVal_encodeGoVal (v : GoVal) (h : jsonStableVal v) :
    decodeGoVal (encodeGoVal v) = some v := by
  cases v <;> simp [jsonStableVal] at h ⊢ <;> rfl

theorem decodeRec_encodeRec (r : GoRec) (h : ∀ p ∈ r, jsonStableVal p.2) :
    decodeRec (encodeRec r) = some r := by
  unfold decodeRec encodeRec
  induction r with
  | nil => rfl
  | cons p ps ih =>
    have hp : jsonStableVal p.2 := h p (List.mem_cons_self p ps)
    have hps : decodeEntries (fun p => (decodeGoVal p.2).map (fun v => (p.1, v)))
        (List.map (fun p => (p.1, encodeGoVal p.2)) ps) = some ps :=
      ih (fun q hq => h q (List.mem_cons_of_mem p hq))
    simp only [List.map_cons, decodeEntries, decodeGoVal_encodeGoVal p.2 hp,
      Option.map_some']
    rw [hps]

theorem decodeIdxMap_encode (cm : List (String × ℤ)) :
    decodeIdxMap (.obj (cm.map (fun q => (q.1, Json.num (q.2 : ℚ))))) = some cm := by
  unfold decodeIdxMap
  induction cm with
  | nil => rfl
  | cons q qs ih =>
    simp only [List.map_cons, decodeEntries, Rat.den_intCast, Rat.num_intCast,
      if_true] at ih ⊢
    rw [ih]

theorem decodeCats_encodeCats (cs : List (String × List (String × ℤ))) :
    decodeCats (encodeCats cs) = some cs := by
  unfold decodeCats encodeCats
  induction cs with
  | nil => rfl
  | cons p ps ih =>
    simp only [List.map_cons, decodeEntries, decodeIdxMap_encode p.2,
      Option.map_some'] at ih ⊢
    rw [ih]

theorem decodeModel_toJson (m : Model) (h : m.jsonStable) :
    decodeModel m.toJson = some m := by
  obtain ⟨hp, hf, ht⟩ := h
  unfold Model.toJson decodeModel
  simp only [lookupKV, String.reduceEq, reduceIte, Option.some_bind,
    decodeRec_encodeRec m.parameters hp, decodeRec_encodeRec m.features hf,
    decodeRec_encodeRec m.targets ht, decodeCats_encodeCats,
    Option.bind_some]
  rfl

theorem decodeWeights_toJson (w : Weights) :
    decodeWeights w.toJson = some w := by
  unfold decodeWeights Weights.toJson
  simp only [lookupKV, String.reduceEq, reduceIte]
  have hmain : decodeEntries (fun p => match p.2 with
      | .num x => some (p.1, x)
      | _ => none) (w.values.map (fun p => (p.1, Json.num p.2)))
      = some w.values := by
    induction w.values with
    | nil => rfl
    | cons p ps ih =>
      simp only [List.map_cons, decodeEntries] at ih ⊢
      rw [ih]
  rw [hmain]
  rfl

/-- Claim **C6.** Serializing a trained engine's model and weights, loading both
snapshots into a fresh engine, and predicting the same record yields exactly
the original engine's prediction (exact rational arithmetic stands in for
the float computation, whose snapshot encoding round-trips losslessly). -/
theorem serialization_roundtrip (e : Engine) (m : Model) (w : Weights)
    (ops : FloatOps) (input : GoRec)
    (h1 : e.model = some m) (h2 : e.weights = some w) (hs : m.jsonStable) :
    e.getModel = .ok m.toJson ∧ e.getWeights = .ok w.toJson ∧
    ∃ e₁ e₂, Engine.new.withModel m.toJson = .ok e₁ ∧
      e₁.withWeights w.toJson = .ok e₂ ∧
      e₂.predict ops input = e.predict ops input := by
  refine ⟨by simp [Engine.getModel, h1], by simp [Engine.getWeights, h2],
    { Engine.new with model := some m },
    { Engine.new with model := some m, weights := some w }, ?_, ?_, ?_⟩
  · unfold Engine.withModel
    rw [decodeModel_toJson m hs]
  · unfold Engine.withWeights
    rw [decodeWeights_toJson w]
  · unfold Engine.predict
    rw [h1, h2]

/-- A concrete trained-shape engine for the round-trip witness. -/
def roundtripEngine : Engine :=
  { model := some NewLinearModel,
    weights := some ⟨[("x->y", 2), ("bias->y", 1)]⟩,
    config := DefaultConfig }

/-- Witness for `serialization_roundtrip` at a concrete linear engine. -/
theorem serialization_roundtrip_witness :
    NewLinearModel.jsonStable ∧
    (roundtripEngine.getModel = .ok NewLinearModel.toJson ∧
     roundtripEngine.getWeights = .ok (Weights.toJson ⟨[("x->y", 2), ("bias->y", 1)]⟩) ∧
     ∃ e₁ e₂, Engine.new.withModel NewLinearModel.toJson = .ok e₁ ∧
       e₁.withWeights (Weights.toJson ⟨[("x->y", 2), ("bias->y", 1)]⟩) = .ok e₂ ∧
       e₂.predict unitOps [("x", GoVal.num 3)]
         = roundtripEngine.predict unitOps [("x", GoVal.num 3)]) :=
  ⟨⟨by decide, by decide, by decide⟩,
   serialization_roundtrip roundtripEngine NewLinearModel
     ⟨[("x->y", 2), ("bias->y", 1)]⟩ unitOps [("x", GoVal.num 3)]
     rfl rfl ⟨by decide, by decide, by decide⟩⟩

/-! ## C9: mixed prediction keeps only type-matching fields -/

theorem mem_setKV {α : Type} {m : List (String × α)} {k : String} {v : α}
    {x : String × α} (h : x ∈ setKV m k v) : x ∈ m ∨ x = (k, v) := by
  induction m with
  | nil =>
    simp [setKV] at h
    simp [h]
  | cons p rest ih =>
    obtain ⟨k', v'⟩ := p
    by_cases hk : k' = k
    · simp only [setKV, if_pos hk] at h
      rcases List.mem_cons.mp h with h | h
      · exact Or.inr h
      · exact Or.inl (List.mem_cons_of_mem _ h)
    · simp only [setKV, if_neg hk] at h
      rcases List.mem_cons.mp h with h | h
      · exact Or.inl (by simp [h])
      · rcases ih h with h' | h'
        · exact Or.inl (List.mem_cons_of_mem _ h')
        · exact Or.inr h'

theorem logPredRec_values_num (ops : FloatOps) (input : GoRec) (w : Weights) :
    ∀ x ∈ logPredRec ops input w, ∃ p : ℚ, x.2 = GoVal.num p := by
  unfold logPredRec
  suffices h : ∀ (ts : List String) (init : GoRec),
      (∀ x ∈ init, ∃ p : ℚ, x.2 = GoVal.num p) →
      ∀ x ∈ ts.foldl (fun r t =>
        setKV r t (.num (sigmoid ops (linPredictInput input w t)))) init,
      ∃ p : ℚ, x.2 = GoVal.num p by
    exact fun x hx => h (weightTargets w) [] (by simp) x hx
  intro ts
  induction ts with
  | nil => intro init hinit; exact hinit
  | cons t rest ih =>
    intro init hinit x hx
    rw [List.foldl_cons] at hx
    refine ih _ ?_ x hx
    intro y hy
    rcases mem_setKV hy with h | h
    · exact hinit y h
    · exact ⟨_, by rw [h]⟩

theorem mixedMergeLinear_lookup (targets lin : GoRec) :
    ∀ (init : GoRec) (k : String) (v : GoVal),
      lookupKV (mixedMergeLinear targets lin init) k = some v →
      lookupKV init k = some v ∨
        ((k, v) ∈ lin ∧ lookupKV targets k = some (.str "numeric")) := by
  unfold mixedMergeLinear
  induction lin with
  | nil => intro init k v h; exact Or.inl h
  | cons p rest ih =>
    intro init k v h
    rw [List.foldl_cons] at h
    rcases ih _ k v h with h' | ⟨hmem, ht⟩
    · by_cases hn : lookupKV targets p.1 = some (.str "numeric")
      · rw [if_pos hn] at h'
        by_cases hk : p.1 = k
        · subst hk
          rw [lookupKV_setKV_self] at h'
          injection h' with h'
          exact Or.inr ⟨by rw [← h']; exact List.mem_cons_self _ _, hn⟩
        · rw [lookupKV_setKV_ne _ _ _ _ hk] at h'
          exact Or.inl h'
      · rw [if_neg hn] at h'
        exact Or.inl h'
    · exact Or.inr ⟨List.mem_cons_of_mem _ hmem, ht⟩

theorem mixedMergeCat_fold_lookup (targets cat : GoRec) (l : GoRec)
    (hsub : ∀ x ∈ l, x ∈ cat) :
    ∀ (init : GoRec) (k : String) (v : GoVal),
      lookupKV (l.foldl (fun r p =>
        if lookupKV targets p.1 = some (.str "categorical") then
          let r := setKV r p.1 p.2
          match lookupKV cat (p.1 ++ "_probs") with
          | some probs => setKV r (p.1 ++ "_probs") probs
          | none => r
        else r) init) k = some v →
      lookupKV init k = some v ∨
        ((k, v) ∈ cat ∧ lookupKV targets k = some (.str "categorical")) ∨
        (∃ t, lookupKV targets t = some (.str "categorical") ∧ k = t ++ "_probs" ∧
          lookupKV cat k = some v) := by
  induction l with
  | nil => intro init k v h; exact Or.inl h
  | cons p rest ih =>
    intro init k v h
    rw [List.foldl_cons] at h
    rcases ih (fun x hx => hsub x (List.mem_cons_of_mem _ hx)) _ k v h with
      h' | h' | h'
    · by_cases hc : lookupKV targets p.1 = some (.str "categorical")
      · rw [if_pos hc] at h'
        simp only [] at h'
        rcases hpr : lookupKV cat (p.1 ++ "_probs") with _ | probs
        · rw [hpr] at h'
          by_cases hk : p.1 = k
          · subst hk
            rw [lookupKV_setKV_self] at h'
            injection h' with h'
            exact Or.inr (Or.inl ⟨by rw [← h']; exact hsub p (List.mem_cons_self _ _), hc⟩)
          · rw [lookupKV_setKV_ne _ _ _ _ hk] at h'
            exact Or.inl h'
        · rw [hpr] at h'
          by_cases hk2 : (p.1 ++ "_probs") = k
          · subst hk2
            rw [lookupKV_setKV_self] at h'
            injection h' with h'
            refine Or.inr (Or.inr ⟨p.1, hc, rfl, ?_⟩)
            rw [hpr, h']
          · rw [lookupKV_setKV_ne _ _ _ _ hk2] at h'
            by_cases hk : p.1 = k
            · subst hk
              rw [lookupKV_setKV_self] at h'
              injection h' with h'
              exact Or.inr (Or.inl ⟨by rw [← h']; exact hsub p (List.mem_cons_self _ _), hc⟩)
            · rw [lookupKV_setKV_ne _ _ _ _ hk] at h'
              exact Or.inl h'
      · rw [if_neg hc] at h'
        exact Or.inl h'
    · exact Or.inr (Or.inl h')
    · exact Or.inr (Or.inr h')

theorem mixedMergeCat_lookup (targets cat : GoRec) (init : GoRec) (k : String)
    (v : GoVal) (h : lookupKV (mixedMergeCat targets cat init) k = some v) :
    lookupKV init k = some v ∨
      ((k, v) ∈ cat ∧ lookupKV targets k = some (.str "categorical")) ∨
      (∃ t, lookupKV targets t = some (.str "categorical") ∧ k = t ++ "_probs" ∧
        lookupKV cat k = some v) :=
  mixedMergeCat_fold_lookup targets cat cat (fun _ hx => hx) init k v h

theorem mixedMergeLog_lookup (targets log : GoRec) :
    ∀ (init : GoRec) (k : String) (v : GoVal),
      lookupKV (mixedMergeLog targets log init) k = some v →
      lookupKV init k = some v ∨
        (∃ v₀, (k, v₀) ∈ log ∧ lookupKV targets k = some (.str "boolean") ∧
          v = (match v₀ with
               | GoVal.num prob => GoVal.bool (decide (prob ≥ 1/2))
               | v₀ => v₀)) := by
  unfold mixedMergeLog
  induction log with
  | nil => intro init k v h; exact Or.inl h
  | cons p rest ih =>
    intro init k v h
    rw [List.foldl_cons] at h
    rcases ih _ k v h with h' | ⟨v₀, hmem, ht, hv⟩
    · by_cases hb : lookupKV targets p.1 = some (.str "boolean")
      · rw [if_pos hb] at h'
        have hgen : ∀ (vw : GoVal),
            lookupKV (setKV init p.1 vw) k = some v →
            vw = (match p.2 with
                  | GoVal.num prob => GoVal.bool (decide (prob ≥ 1/2))
                  | v₀ => v₀) →
            lookupKV init k = some v ∨
              (∃ v₀, (k, v₀) ∈ p :: rest ∧
                lookupKV targets k = some (.str "boolean") ∧
                v = (match v₀ with
                     | GoVal.num prob => GoVal.bool (decide (prob ≥ 1/2))
                     | v₀ => v₀)) := by
          intro vw hlook hvw
          by_cases hk : p.1 = k
          · subst hk
            rw [lookupKV_setKV_self] at hlook
            injection hlook with hlook
            refine Or.inr ⟨p.2, by simp, hb, ?_⟩
            rw [← hlook, hvw]
          · rw [lookupKV_setKV_ne _ _ _ _ hk] at hlook
            exact Or.inl hlook
        rcases hp2 : p.2 with x | n | s | b | d
        all_goals rw [hp2] at h'
        · exact hgen _ h' (by rw [hp2])
        · exact hgen _ h' (by rw [hp2])
        · exact hgen _ h' (by rw [hp2])
        · exact hgen _ h' (by rw [hp2])
        · exact hgen _ h' (by rw [hp2])
      · rw [if_neg hb] at h'
        exact Or.inl h'
    · exact Or.inr ⟨v₀, List.mem_cons_of_mem _ hmem, ht, hv⟩

/-- Claim **C9.** A mixed-model prediction contains a field only when its recorded
`target_types` entry matches the producing predictor: `"numeric"` fields are
the linear predictor's outputs, `"boolean"` fields are the logistic
predictor's probabilities thresholded at `0.5`, `"categorical"` fields are
the categorical predictor's outputs, and the only fields without a matching
recorded type are the `"<target>_probs"` siblings of categorical targets,
copied from the categorical predictor.  (The hypothesis rules out target
names colliding with generated `"_probs"` keys — such names would let the
sibling copy overwrite a numeric or boolean field.) -/
theorem mixed_prediction_typed (ops : FloatOps) (input : GoRec) (w : Weights)
    (m : Model)
    (hwf : ∀ p ∈ m.targets, p.2 = GoVal.str "categorical" →
      lookupKV m.targets (p.1 ++ "_probs") = none) :
    ∀ r, predictMixedModel ops input w m = .ok r →
    ∀ k v, lookupKV r k = some v →
      (lookupKV m.targets k = some (.str "numeric") →
        (k, v) ∈ linPredRec input w) ∧
      (lookupKV m.targets k = some (.str "boolean") →
        ∃ prob : ℚ, (k, GoVal.num prob) ∈ logPredRec ops input w ∧
          v = .bool (decide (prob ≥ 1/2))) ∧
      (lookupKV m.targets k = some (.str "categorical") →
        (k, v) ∈ catPredRec ops input w m) ∧
      ((lookupKV m.targets k ≠ some (.str "numeric") ∧
        lookupKV m.targets k ≠ some (.str "boolean") ∧
        lookupKV m.targets k ≠ some (.str "categorical")) →
        ∃ t, lookupKV m.targets t = some (.str "categorical") ∧ k = t ++ "_probs" ∧
          lookupKV (catPredRec ops input w m) k = some v) := by
  intro r hr k v hk
  have hr' : r = mixedMergeLog m.targets (logPredRec ops input w)
      (mixedMergeCat m.targets (catPredRec ops input w m)
        (mixedMergeLinear m.targets (linPredRec input w) [])) := by
    have : predictMixedModel ops input w m
        = .ok (mixedMergeLog m.targets (logPredRec ops input w)
            (mixedMergeCat m.targets (catPredRec ops input w m)
              (mixedMergeLinear m.targets (linPredRec input w) []))) := rfl
    rw [this] at hr
    injection hr with hr
    exact hr.symm
  subst hr'
  rcases mixedMergeLog_lookup m.targets (logPredRec ops input w) _ k v hk with
    hk1 | ⟨v₀, hmem, ht, hv⟩
  · rcases mixedMergeCat_lookup m.targets (catPredRec ops input w m) _ k v hk1 with
      hk2 | ⟨hmem, ht⟩ | ⟨t, htc, hkt, hlook⟩
    · rcases mixedMergeLinear_lookup m.targets (linPredRec input w) _ k v hk2 with
        hk3 | ⟨hmem, ht⟩
      · simp [lookupKV] at hk3
      · refine ⟨fun _ => hmem, ?_, ?_, ?_⟩
        · intro hb
          rw [ht] at hb
          injection hb with hb
          injection hb with hb
          exact absurd hb (by decide)
        · intro hc
          rw [ht] at hc
          injection hc with hc
          injection hc with hc
          exact absurd hc (by decide)
        · intro ⟨hn, _, _⟩
          exact absurd ht hn
    · refine ⟨?_, ?_, fun _ => hmem, ?_⟩
      · intro hn
        rw [ht] at hn
        injection hn with hn
        injection hn with hn
        exact absurd hn (by decide)
      · intro hb
        rw [ht] at hb
        injection hb with hb
        injection hb with hb
        exact absurd hb (by decide)
      · intro ⟨_, _, hc⟩
        exact absurd ht hc
    · have hnone : lookupKV m.targets k = none := by
        rw [hkt]
        exact hwf (t, GoVal.str "categorical") (lookupKV_mem htc) rfl
      refine ⟨?_, ?_, ?_, fun _ => ⟨t, htc, hkt, hlook⟩⟩
      all_goals intro habs; rw [hnone] at habs; exact Option.noConfusion habs
  · obtain ⟨prob, hprob⟩ := logPredRec_values_num ops input w (k, v₀) hmem
    simp only [] at hprob
    subst hprob
    refine ⟨?_, fun _ => ⟨prob, hmem, hv⟩, ?_, ?_⟩
    · intro hn
      rw [ht] at hn
      injection hn with hn
      injection hn with hn
      exact absurd hn (by decide)
    · intro hc
      rw [ht] at hc
      injection hc with hc
      injection hc with hc
      exact absurd hc (by decide)
    · intro ⟨_, hb, _⟩
      exact absurd ht hb

/-- A concrete trained-shape mixed model for the C9 witness. -/
def mixModel : Model :=
  { NewMixedModel with
      targets := [("n", .str "numeric"), ("c", .str "categorical"),
                  ("b", .str "boolean")],
      categories := [("c", [("a", 0), ("bb", 1)])] }

/-- A concrete shared weight store for the C9 witness. -/
def mixWeights : Weights :=
  ⟨[("x->n", 2), ("bias->n", 0), ("x->c:a", 1), ("bias->c:a", 0),
    ("x->c:bb", 0), ("bias->c:bb", 0), ("x->b", 0), ("bias->b", 0)]⟩

unseal Rat.mul Rat.add Rat.sub Rat.inv in
/-- Witness for `mixed_prediction_typed`: the boolean-typed field `"b"` of a
concrete mixed prediction is the thresholded logistic output. -/
theorem mixed_prediction_typed_witness :
    (∀ p ∈ mixModel.targets, p.2 = GoVal.str "categorical" →
      lookupKV mixModel.targets (p.1 ++ "_probs") = none) ∧
    ∃ prob : ℚ, ("b", GoVal.num prob) ∈ logPredRec unitOps [("x", GoVal.num 3)] mixWeights ∧
      GoVal.bool true = .bool (decide (prob ≥ 1/2)) :=
  ⟨by decide,
   (mixed_prediction_typed unitOps [("x", GoVal.num 3)] mixWeights mixModel
      (by decide) _ rfl "b" (GoVal.bool true) (by decide)).2.1 (by decide)⟩

end goml
